import Mathlib

/-!
Shallow embedding of the scheduler subsystem of the insights backend
(Go sources: scheduler service, scheduler runner, timezone service) and
proofs about it.

Conventions of the embedding:
* An absolute instant is its Unix epoch time in whole seconds (`Int`);
  sub-second precision is irrelevant to every property considered here.
* A Go `time.Time` value is a pair of an instant and the UTC offset (in
  seconds) of the location it is displayed in (`GoTime`).
* IANA time zones are modelled as fixed UTC offsets resolved by a fixed
  table (`loadLocation`); zones with daylight saving time are kept out of
  the table, so the model only speaks about fixed-offset zones.
* The Gregorian calendar arithmetic mirrors the civil-from-days and
  days-from-civil algorithms underlying Go's `time` package.
-/

namespace Insights

/-- Gregorian leap-year predicate (Go `time.isLeap`). -/
def isLeap (y : Int) : Bool :=
  (y % 4 == 0 && y % 100 != 0) || y % 400 == 0

/-- Length of month `m` (1..12) of year `y` (Go `time.daysIn`). -/
def daysInMonth (y : Int) (m : Nat) : Nat :=
  if m = 2 then (if isLeap y then 29 else 28)
  else if m = 4 ∨ m = 6 ∨ m = 9 ∨ m = 11 then 30
  else 31

/-- Days before year-of-era `k` (`0..399`) inside a 400-year Gregorian era. -/
def dpy (k : Nat) : Nat := 365 * k + k / 4 - k / 100

/-- Last day-of-era that belongs to year-of-era `k`. -/
def dpyEnd (k : Nat) : Nat := if k = 399 then 146096 else dpy (k + 1) - 1

/-- Year-of-era of a day-of-era (`0..146096`), by Hinnant's formula. -/
def yoeOf (doe : Nat) : Nat :=
  (doe - doe / 1460 + doe / 36524 - doe / 146096) / 365

/-- First day-of-year (March-based) of month index `mp` (`0..11`, March = 0),
by Hinnant's formula. -/
def mcum (mp : Nat) : Nat := (153 * mp + 2) / 5

/-- Civil date `(y, m, d)` of a day number (days since 1970-01-01), by
Hinnant's `civil_from_days`; this is the decomposition used by Go's
`time.Time.Date`. -/
def civilFromDays (n : Int) : Int × Nat × Nat :=
  let z := n + 719468
  let era := z / 146097
  let doe : Nat := (z - era * 146097).toNat
  let yoe := yoeOf doe
  let doy := doe - dpy yoe
  let mp := (5 * doy + 2) / 153
  let d := doy - mcum mp + 1
  let m := if mp < 10 then mp + 3 else mp - 9
  (era * 400 + (yoe : Int) + (if m ≤ 2 then 1 else 0), m, d)

/-- Day number (days since 1970-01-01) of the civil date `y-m-d`, by
Hinnant's `days_from_civil`; this is the composition used by Go's
`time.Date`. -/
def daysFromCivil (y : Int) (m d : Nat) : Int :=
  let y' := if m ≤ 2 then y - 1 else y
  let era := y' / 400
  let yoe : Nat := (y' - era * 400).toNat
  let mp := if 2 < m then m - 3 else m + 9
  let doy := mcum mp + d - 1
  let doe := dpy yoe + doy
  era * 146097 + (doe : Int) - 719468

set_option maxRecDepth 100000 in
/-- The year-of-era formula is exact at both ends of every year-of-era. -/
theorem yoe_boundary : ∀ k < 400, yoeOf (dpy k) = k ∧ yoeOf (dpyEnd k) = k := by
  decide

set_option maxRecDepth 100000 in
/-- Every year-of-era starts no later than it ends. -/
theorem dpy_le_dpyEnd : ∀ k < 400, dpy k ≤ dpyEnd k := by decide

/-- The year-of-era formula is monotone. -/
theorem yoeOf_mono {x y : Nat} (h : x ≤ y) : yoeOf x ≤ yoeOf y := by
  induction y with
  | zero => simp_all
  | succ y ih =>
    rcases Nat.lt_or_ge x (y + 1) with h' | h'
    · exact le_trans (ih (by omega)) (by unfold yoeOf; omega)
    · have hx : x = y + 1 := by omega
      subst hx
      exact le_refl _

/-- Every day-of-era lies in the range of some year-of-era. -/
theorem exists_yoe : ∀ doe ≤ 146096, ∃ k, k ≤ 399 ∧ dpy k ≤ doe ∧ doe ≤ dpyEnd k := by
  intro doe hdoe
  induction doe with
  | zero => exact ⟨0, by decide⟩
  | succ doe ih =>
    obtain ⟨k, hk, h1, h2⟩ := ih (by omega)
    rcases Nat.lt_or_ge doe (dpyEnd k) with h' | h'
    · exact ⟨k, hk, by omega, by omega⟩
    · have hne : k ≠ 399 := by
        intro h
        subst h
        have : dpyEnd 399 = 146096 := by decide
        omega
      have hEnd : dpyEnd k = dpy (k + 1) - 1 := by simp [dpyEnd, hne]
      have hstep : dpy k < dpy (k + 1) := by unfold dpy; omega
      have hnext : dpy (k + 1) ≤ dpyEnd (k + 1) := dpy_le_dpyEnd (k + 1) (by omega)
      exact ⟨k + 1, by omega, by omega, by omega⟩

/-- If a day-of-era lies in year-of-era `k`, the formula recovers `k`. -/
theorem yoeOf_eq_of_mem {doe k : Nat} (hk : k ≤ 399)
    (h1 : dpy k ≤ doe) (h2 : doe ≤ dpyEnd k) : yoeOf doe = k := by
  have hb := yoe_boundary k (by omega)
  have hlo := yoeOf_mono h1
  have hhi := yoeOf_mono h2
  omega

/-- Characterisation of the year-of-era formula on a full era. -/
theorem yoeOf_spec {doe : Nat} (h : doe ≤ 146096) :
    yoeOf doe ≤ 399 ∧ dpy (yoeOf doe) ≤ doe ∧ doe ≤ dpyEnd (yoeOf doe) := by
  obtain ⟨k, hk, h1, h2⟩ := exists_yoe doe h
  have := yoeOf_eq_of_mem hk h1 h2
  subst this
  exact ⟨hk, h1, h2⟩

set_option maxRecDepth 100000 in
/-- The month formula is exact on every March-based day-of-year. -/
theorem mp_spec : ∀ doy ≤ 366,
    (5 * doy + 2) / 153 ≤ 11 ∧ mcum ((5 * doy + 2) / 153) ≤ doy ∧
      doy < mcum ((5 * doy + 2) / 153 + 1) := by
  decide

/-- The month formula recovers the month index from any day inside it. -/
theorem mp_eq_of_mem {doy k : Nat} (hk : k ≤ 11)
    (h1 : mcum k ≤ doy) (h2 : doy < mcum (k + 1)) :
    (5 * doy + 2) / 153 = k := by
  have h12 : mcum (k + 1) ≤ mcum 12 := by unfold mcum; omega
  have hc : mcum 12 = 367 := by decide
  have hd : doy ≤ 366 := by omega
  have hs := mp_spec doy hd
  set mp := (5 * doy + 2) / 153 with hmp
  rcases Nat.lt_trichotomy mp k with h | h | h
  · have : mcum (mp + 1) ≤ mcum k := by unfold mcum; omega
    omega
  · exact h
  · have : mcum (k + 1) ≤ mcum mp := by unfold mcum; omega
    omega

set_option maxRecDepth 100000 in
/-- Each year-of-era spans at most 366 days. -/
theorem dpyEnd_sub : ∀ k < 400, dpyEnd k ≤ dpy k + 365 := by decide

set_option maxRecDepth 100000 in
/-- Upper bound on the day prefix of a year-of-era. -/
theorem dpy_le_max : ∀ k ≤ 399, dpy k ≤ 145731 := by decide

/-- Every month has at most 31 days. -/
theorem daysInMonth_le (y : Int) (m : Nat) : daysInMonth y m ≤ 31 := by
  unfold daysInMonth
  split
  · split <;> omega
  · split <;> omega

/-- Every month has at least 28 days. -/
theorem daysInMonth_ge (y : Int) (m : Nat) : 28 ≤ daysInMonth y m := by
  unfold daysInMonth
  split
  · split <;> omega
  · split <;> omega

/-- Unfolding of the leap-year predicate into modular conditions. -/
theorem isLeap_iff {y : Int} :
    isLeap y = true ↔ ((y % 4 = 0 ∧ ¬ y % 100 = 0) ∨ y % 400 = 0) := by
  simp [isLeap]

/-- `daysFromCivil` in closed linear form (valid for `1 ≤ d`). -/
theorem daysFromCivil_linear (y : Int) (m d : Nat) (hd : 1 ≤ d) :
    daysFromCivil y m d =
      365 * (if m ≤ 2 then y - 1 else y) + (if m ≤ 2 then y - 1 else y) / 4
        - (if m ≤ 2 then y - 1 else y) / 100 + (if m ≤ 2 then y - 1 else y) / 400
        + (mcum (if 2 < m then m - 3 else m + 9) : Int) + (d : Int) - 1 - 719468 := by
  by_cases hm : m ≤ 2
  · have hm' : ¬ (2 < m) := by omega
    simp only [daysFromCivil, dpy, mcum, if_pos hm, if_neg hm']
    omega
  · have hm' : 2 < m := by omega
    simp only [daysFromCivil, dpy, mcum, if_neg hm, if_pos hm']
    omega

/-- Division facts for a year written as `era * 400 + yoe`. -/
theorem ediv_bridge {t era : Int} {yoe : Nat} (h : t = (yoe : Int) + era * 400)
    (hy : yoe ≤ 399) :
    t / 4 = ((yoe / 4 : Nat) : Int) + 100 * era ∧
      t / 100 = ((yoe / 100 : Nat) : Int) + 4 * era ∧ t / 400 = era := by
  have hv4 : t = (yoe : Int) + (100 * era) * 4 := by omega
  have h4 : t / 4 = (yoe : Int) / 4 + 100 * era := by
    rw [hv4, Int.add_mul_ediv_right _ _ (by norm_num)]
  have hv100 : t = (yoe : Int) + (4 * era) * 100 := by omega
  have h100 : t / 100 = (yoe : Int) / 100 + 4 * era := by
    rw [hv100, Int.add_mul_ediv_right _ _ (by norm_num)]
  have h400 : t / 400 = (yoe : Int) / 400 + era := by
    rw [h, Int.add_mul_ediv_right _ _ (by norm_num)]
  have hz4 : ((yoe : Int)) / 4 = ((yoe / 4 : Nat) : Int) := (Int.ofNat_ediv _ _).symm
  have hz100 : ((yoe : Int)) / 100 = ((yoe / 100 : Nat) : Int) := (Int.ofNat_ediv _ _).symm
  have hz400 : ((yoe : Int)) / 400 = 0 := Int.ediv_eq_zero_of_lt (by omega) (by omega)
  omega

/-- Decomposing a day number into a civil date and recomposing gives it back. -/
theorem daysFromCivil_civilFromDays {n y : Int} {m d : Nat}
    (h : civilFromDays n = (y, m, d)) : daysFromCivil y m d = n := by
  simp only [civilFromDays, Prod.mk.injEq] at h
  set z := n + 719468 with hz
  set era := z / 146097 with hera
  have hrange : 0 ≤ z - era * 146097 ∧ z - era * 146097 ≤ 146096 := by omega
  set doe : Nat := (z - era * 146097).toNat with hdoeN
  have hdoeI : (doe : Int) = z - era * 146097 := by omega
  have hdoe146 : doe ≤ 146096 := by omega
  obtain ⟨hy1, hy2, hy3⟩ := yoeOf_spec hdoe146
  set yoe := yoeOf doe with hyoe
  set doy := doe - dpy yoe with hdoy
  have hdoyB : doy ≤ 365 := by
    have := dpyEnd_sub yoe (by omega)
    omega
  obtain ⟨hmp1, hmp2, hmp3⟩ := mp_spec doy (by omega)
  set mp := (5 * doy + 2) / 153 with hmp
  obtain ⟨hyEq, hmEq, hdEq⟩ := h
  have hdoeEq : doe = dpy yoe + doy := by omega
  have hmcum : mcum mp ≤ doy := hmp2
  by_cases hsplit : mp < 10
  · rw [if_pos hsplit] at hmEq hyEq
    have hmle : ¬ (m ≤ 2) := by omega
    have hmgt : 2 < m := by omega
    have hc : ¬ (mp + 3 ≤ 2) := by omega
    rw [if_neg hc] at hyEq
    have hd1 : 1 ≤ d := by omega
    have hlin := daysFromCivil_linear y m d hd1
    rw [if_neg hmle, if_pos hmgt] at hlin
    have hmp' : m - 3 = mp := by omega
    rw [hmp'] at hlin
    rw [hlin]
    simp only [dpy] at hdoeEq
    obtain ⟨hb4, hb100, hb400⟩ := @ediv_bridge y era yoe (by omega) hy1
    omega
  · rw [if_neg hsplit] at hmEq hyEq
    have hmle : m ≤ 2 := by omega
    have hmgt : ¬ (2 < m) := by omega
    have hc : mp - 9 ≤ 2 := by omega
    rw [if_pos hc] at hyEq
    have hd1 : 1 ≤ d := by omega
    have hlin := daysFromCivil_linear y m d hd1
    rw [if_pos hmle, if_neg hmgt] at hlin
    have hmp' : m + 9 = mp := by omega
    rw [hmp'] at hlin
    rw [hlin]
    simp only [dpy] at hdoeEq
    obtain ⟨hb4, hb100, hb400⟩ :=
      @ediv_bridge (y - 1) era yoe (by omega) hy1
    omega

/-- The civil date produced by `civilFromDays` is a valid Gregorian date. -/
theorem civilFromDays_valid {n y : Int} {m d : Nat}
    (h : civilFromDays n = (y, m, d)) :
    1 ≤ m ∧ m ≤ 12 ∧ 1 ≤ d ∧ d ≤ daysInMonth y m := by
  simp only [civilFromDays, Prod.mk.injEq] at h
  set z := n + 719468 with hz
  set era := z / 146097 with hera
  have hrange : 0 ≤ z - era * 146097 ∧ z - era * 146097 ≤ 146096 := by omega
  set doe : Nat := (z - era * 146097).toNat with hdoeN
  have hdoeI : (doe : Int) = z - era * 146097 := by omega
  have hdoe146 : doe ≤ 146096 := by omega
  obtain ⟨hy1, hy2, hy3⟩ := yoeOf_spec hdoe146
  set yoe := yoeOf doe with hyoe
  set doy := doe - dpy yoe with hdoy
  have hdoyB : doy ≤ 365 := by
    have := dpyEnd_sub yoe (by omega)
    omega
  obtain ⟨hmp1, hmp2, hmp3⟩ := mp_spec doy (by omega)
  set mp := (5 * doy + 2) / 153 with hmp
  obtain ⟨hyEq, hmEq, hdEq⟩ := h
  have hm10 : mcum 10 = 306 := by decide
  have hm11 : mcum 11 = 337 := by decide
  by_cases hsplit : mp < 10
  · rw [if_pos hsplit] at hmEq hyEq
    refine ⟨by omega, by omega, by omega, ?_⟩
    have hmEq' : m = mp + 3 := by omega
    rw [hmEq']
    clear_value mp
    interval_cases mp <;>
      simp only [mcum] at hmp2 hmp3 hdEq <;> simp [daysInMonth] <;> omega
  · rw [if_neg hsplit] at hmEq hyEq
    have hc2 : mp - 9 ≤ 2 := by omega
    rw [if_pos hc2] at hyEq
    refine ⟨by omega, by omega, by omega, ?_⟩
    by_cases hmp11 : mp = 11
    · have hm2 : m = 2 := by omega
      rw [hmp11] at hmp2 hmp3 hdEq
      have hm12 : mcum 12 = 367 := by decide
      rcases Nat.lt_or_ge d 29 with hd29 | hd29
      · have := daysInMonth_ge y m
        omega
      · have hdoy365 : doy = 365 := by omega
        have hdoeEq : doe = dpy yoe + doy := by omega
        have hleap : isLeap y = true := by
          rw [isLeap_iff]
          by_cases hyn : yoe = 399
          · right
            omega
          · left
            have hEnd : dpyEnd yoe = dpy (yoe + 1) - 1 := by simp [dpyEnd, hyn]
            have hstep : dpy yoe + 366 ≤ dpy (yoe + 1) := by omega
            unfold dpy at hstep
            constructor <;> omega
        rw [hm2]
        simp [daysInMonth, hleap]
        omega
    · have hmp10 : mp = 10 := by omega
      have hm1 : m = 1 := by omega
      rw [hmp10] at hmp2 hmp3 hdEq
      rw [hm1]
      have h31 : daysInMonth y 1 = 31 := by norm_num [daysInMonth]
      omega

/-- Composing a valid civil date into a day number and decomposing it gives
the date back. -/
theorem civilFromDays_daysFromCivil {y : Int} {m d : Nat}
    (hm1 : 1 ≤ m) (hm2 : m ≤ 12) (hd1 : 1 ≤ d) (hd2 : d ≤ daysInMonth y m) :
    civilFromDays (daysFromCivil y m d) = (y, m, d) := by
  have hd31 : d ≤ 31 := le_trans hd2 (daysInMonth_le y m)
  have hmc10 : mcum 10 = 306 := by decide
  have hmc11 : mcum 11 = 337 := by decide
  have hmc12 : mcum 12 = 367 := by decide
  by_cases hmle : m ≤ 2
  · -- January or February: the computational year is y - 1
    have hmgt : ¬ 2 < m := by omega
    have hfc : daysFromCivil y m d =
        (y - 1) / 400 * 146097 +
          ((dpy ((y - 1 - (y - 1) / 400 * 400).toNat) + (mcum (m + 9) + d - 1) : Nat) : Int)
          - 719468 := by
      simp only [daysFromCivil, if_pos hmle, if_neg hmgt]
    set era0 := (y - 1) / 400 with hera0
    have hyoeR : 0 ≤ y - 1 - era0 * 400 ∧ y - 1 - era0 * 400 ≤ 399 := by omega
    set yoe0 : Nat := (y - 1 - era0 * 400).toNat with hyoe0
    have hyoeI : (yoe0 : Int) = y - 1 - era0 * 400 := by omega
    have hyoe399 : yoe0 ≤ 399 := by omega
    set doy0 := mcum (m + 9) + d - 1 with hdoy0
    set doe0 := dpy yoe0 + doy0 with hdoe0
    have hdim2 : daysInMonth y 2 = if isLeap y then 29 else 28 := by simp [daysInMonth]
    have hd29 : m = 2 → d ≤ 29 := by
      intro h2
      rw [h2, hdim2] at hd2
      split at hd2 <;> omega
    have hm12 : m = 1 ∨ m = 2 := by omega
    have hdoyB : doy0 ≤ 365 := by
      rcases hm12 with h1 | h2
      · rw [h1] at hdoy0
        norm_num at hdoy0
        omega
      · have := hd29 h2
        rw [h2] at hdoy0
        norm_num at hdoy0
        omega
    have hdoeB : doe0 ≤ 146096 := by
      have := dpy_le_max yoe0 hyoe399
      omega
    have hdEnd : doe0 ≤ dpyEnd yoe0 := by
      by_cases hyn : yoe0 = 399
      · have h1 : dpyEnd 399 = 146096 := by decide
        have h2 : dpy 399 = 145731 := by decide
        rw [hyn] at hdoe0 ⊢
        omega
      · have hEnd : dpyEnd yoe0 = dpy (yoe0 + 1) - 1 := by simp [dpyEnd, hyn]
        rcases Nat.lt_or_ge doy0 365 with hlt | hge
        · have hstep : dpy yoe0 + 365 ≤ dpy (yoe0 + 1) := by unfold dpy; omega
          omega
        · have h365 : doy0 = 365 := by omega
          have hm2 : m = 2 := by
            rcases hm12 with h1 | h2
            · rw [h1] at hdoy0
              norm_num at hdoy0
              omega
            · exact h2
          have hdd : d = 29 := by
            rw [hm2] at hdoy0
            norm_num at hdoy0
            omega
          have hleap : isLeap y = true := by
            rw [hm2, hdim2] at hd2
            rcases hlp : isLeap y with hf | ht
            · rw [hlp] at hd2
              norm_num at hd2
              omega
            · rfl
          rw [isLeap_iff] at hleap
          have hstep : dpy yoe0 + 366 ≤ dpy (yoe0 + 1) := by
            unfold dpy
            rcases hleap with ⟨h4, h100⟩ | h400
            · omega
            · exfalso; omega
          omega
    rw [hfc]
    simp only [civilFromDays, Prod.mk.injEq]
    have hzsimp : era0 * 146097 + (doe0 : Int) - 719468 + 719468
        = era0 * 146097 + (doe0 : Int) := by ring
    rw [hzsimp]
    have hEra : (era0 * 146097 + (doe0 : Int)) / 146097 = era0 := by omega
    rw [hEra]
    have hDoe : (era0 * 146097 + (doe0 : Int) - era0 * 146097).toNat = doe0 := by omega
    rw [hDoe]
    have hYoe : yoeOf doe0 = yoe0 := yoeOf_eq_of_mem hyoe399 (by omega) hdEnd
    rw [hYoe]
    have hDoy : doe0 - dpy yoe0 = doy0 := by omega
    rw [hDoy]
    have hMpB : doy0 < mcum (m + 9 + 1) := by
      rcases hm12 with h1 | h2
      · rw [h1] at hdoy0 ⊢
        norm_num at hdoy0 ⊢
        omega
      · have := hd29 h2
        rw [h2] at hdoy0 ⊢
        norm_num at hdoy0 ⊢
        omega
    have hMp : (5 * doy0 + 2) / 153 = m + 9 :=
      mp_eq_of_mem (by omega) (by omega) hMpB
    rw [hMp]
    have hIf : ¬ (m + 9 < 10) := by omega
    rw [if_neg hIf]
    have hSub : m + 9 - 9 = m := by omega
    rw [hSub, if_pos hmle]
    refine ⟨by omega, rfl, by omega⟩
  · -- March to December: the computational year is y itself
    have hmgt : 2 < m := by omega
    have hfc : daysFromCivil y m d =
        y / 400 * 146097 +
          ((dpy ((y - y / 400 * 400).toNat) + (mcum (m - 3) + d - 1) : Nat) : Int)
          - 719468 := by
      simp only [daysFromCivil, if_neg hmle, if_pos hmgt]
    set era0 := y / 400 with hera0
    have hyoeR : 0 ≤ y - era0 * 400 ∧ y - era0 * 400 ≤ 399 := by omega
    set yoe0 : Nat := (y - era0 * 400).toNat with hyoe0
    have hyoeI : (yoe0 : Int) = y - era0 * 400 := by omega
    have hyoe399 : yoe0 ≤ 399 := by omega
    set doy0 := mcum (m - 3) + d - 1 with hdoy0
    set doe0 := dpy yoe0 + doy0 with hdoe0
    have hmcB : mcum (m - 3) ≤ mcum 9 := by unfold mcum; omega
    have hmc9 : mcum 9 = 275 := by decide
    have hdoyB : doy0 ≤ 305 := by omega
    have hdoeB : doe0 ≤ 146096 := by
      have := dpy_le_max yoe0 hyoe399
      omega
    have hdEnd : doe0 ≤ dpyEnd yoe0 := by
      by_cases hyn : yoe0 = 399
      · have h1 : dpyEnd 399 = 146096 := by decide
        have h2 : dpy 399 = 145731 := by decide
        rw [hyn] at hdoe0 ⊢
        omega
      · have hEnd : dpyEnd yoe0 = dpy (yoe0 + 1) - 1 := by simp [dpyEnd, hyn]
        have hstep : dpy yoe0 + 365 ≤ dpy (yoe0 + 1) := by unfold dpy; omega
        omega
    rw [hfc]
    simp only [civilFromDays, Prod.mk.injEq]
    have hzsimp : era0 * 146097 + (doe0 : Int) - 719468 + 719468
        = era0 * 146097 + (doe0 : Int) := by ring
    rw [hzsimp]
    have hEra : (era0 * 146097 + (doe0 : Int)) / 146097 = era0 := by omega
    rw [hEra]
    have hDoe : (era0 * 146097 + (doe0 : Int) - era0 * 146097).toNat = doe0 := by omega
    rw [hDoe]
    have hYoe : yoeOf doe0 = yoe0 := yoeOf_eq_of_mem hyoe399 (by omega) hdEnd
    rw [hYoe]
    have hDoy : doe0 - dpy yoe0 = doy0 := by omega
    rw [hDoy]
    have hMpB : doy0 < mcum (m - 3 + 1) := by
      clear_value doy0 doe0
      subst hdoy0
      interval_cases m <;>
        simp only [daysInMonth] at hd2 <;> norm_num at hd2 <;>
          simp only [mcum] at * <;> omega
    have hMp : (5 * doy0 + 2) / 153 = m - 3 :=
      mp_eq_of_mem (by omega) (by omega) hMpB
    rw [hMp]
    have hIf : m - 3 < 10 := by omega
    rw [if_pos hIf]
    have hSub : m - 3 + 3 = m := by omega
    rw [hSub, if_neg hmle]
    refine ⟨by omega, rfl, by omega⟩

/-- `daysFromCivil` is affine in the day component. -/
theorem daysFromCivil_day (y : Int) (m d : Nat) (hd : 1 ≤ d) :
    daysFromCivil y m d = daysFromCivil y m 1 + (d : Int) - 1 := by
  rw [daysFromCivil_linear y m d hd, daysFromCivil_linear y m 1 (by norm_num)]
  push_cast
  ring

/-- The day after the last day of a month is the first day of the next month. -/
theorem daysFromCivil_next_month (y : Int) (m : Nat) (hm1 : 1 ≤ m) (hm2 : m ≤ 12) :
    daysFromCivil (if m = 12 then y + 1 else y) (if m = 12 then 1 else m + 1) 1
      = daysFromCivil y m (daysInMonth y m) + 1 := by
  interval_cases m
  · norm_num [daysInMonth]
    simp only [daysFromCivil, dpy, mcum]
    norm_num
    omega
  · -- February: crosses the computational-year boundary, needs the leap rule
    norm_num [daysInMonth]
    rw [daysFromCivil_linear y 3 1 (by norm_num)]
    have hdim : (1 : Nat) ≤ if isLeap y then 29 else 28 := by split <;> norm_num
    rw [daysFromCivil_linear y 2 _ hdim]
    norm_num [mcum]
    rcases hlp : isLeap y with hf | ht
    · have hmods : ¬ ((y % 4 = 0 ∧ ¬ y % 100 = 0) ∨ y % 400 = 0) := by
        rw [← isLeap_iff, hlp]
        simp
      simp only [hlp, if_neg, Bool.false_eq_true]
      norm_num
      omega
    · have hmods : (y % 4 = 0 ∧ ¬ y % 100 = 0) ∨ y % 400 = 0 := by
        rw [← isLeap_iff]
        exact hlp
      simp only [hlp, if_pos]
      norm_num
      omega
  all_goals
    norm_num [daysInMonth] <;>
      simp only [daysFromCivil, dpy, mcum] <;> norm_num <;> omega

/-! ### Instants, `time.Time` values and fixed-offset locations -/

/-- A Go `time.Time`: an absolute instant (Unix epoch seconds) together with
the UTC offset, in seconds, of the location it is displayed in. -/
structure GoTime where
  epoch : Int
  off : Int
deriving DecidableEq

/-- Fixed-offset zone table standing in for `time.LoadLocation`, restricted
to the DST-free fragment of the IANA database: the zones used in this
development that keep a single UTC offset year-round (plus the empty name,
which `time.LoadLocation` maps to UTC); offsets are seconds east of UTC.
Zone names with daylight-saving transitions (`America/New_York`, ...) are
deliberately not resolvable here, because a single fixed offset cannot
represent them; consequently every statement below that quantifies over
resolvable zones is scoped to fixed-offset zones and asserts nothing about
the program's behaviour in DST zones (where, e.g., a 25-hour fall-back day
changes the daily and weekly arithmetic). -/
def loadLocation (name : String) : Option Int :=
  if name = "" ∨ name = "UTC" then some 0
  else if name = "Asia/Kolkata" then some 19800
  else if name = "Asia/Shanghai" then some 28800
  else if name = "Asia/Tokyo" then some 32400
  else if name = "Asia/Dubai" then some 14400
  else none

/-- `t.In(loc)`: same instant, displayed at offset `off`. -/
def GoTime.inZone (t : GoTime) (off : Int) : GoTime := ⟨t.epoch, off⟩

/-- `t.UTC()`: same instant, displayed in UTC. -/
def GoTime.utc (t : GoTime) : GoTime := ⟨t.epoch, 0⟩

/-- Wall-clock seconds in the display zone. -/
def GoTime.localSecs (t : GoTime) : Int := t.epoch + t.off

/-- Local calendar day number (days since 1970-01-01 in the display zone). -/
def GoTime.dayNumber (t : GoTime) : Int := t.localSecs / 86400

/-- Seconds since local midnight (`0..86399`). -/
def GoTime.secOfDay (t : GoTime) : Int := t.localSecs % 86400

/-- `t.Date()`: the local civil date. -/
def GoTime.date (t : GoTime) : Int × Nat × Nat := civilFromDays t.dayNumber

/-- `t.Hour()`. -/
def GoTime.hour (t : GoTime) : Int := t.secOfDay / 3600

/-- `t.Minute()`. -/
def GoTime.minute (t : GoTime) : Int := t.secOfDay % 3600 / 60

/-- `t.Weekday()` (Sunday = 0; day 0, 1970-01-01, was a Thursday). -/
def GoTime.weekday (t : GoTime) : Int := (t.dayNumber + 4) % 7

/-- `t.AddDate(0, 0, n)`: in a fixed-offset zone adding calendar days
preserves the wall clock, i.e. shifts the instant by `n · 86400` seconds. -/
def GoTime.addDays (t : GoTime) (n : Int) : GoTime := ⟨t.epoch + n * 86400, t.off⟩

/-- `t.Add(24 * time.Hour)`: an absolute 24-hour shift. -/
def GoTime.add24h (t : GoTime) : GoTime := ⟨t.epoch + 86400, t.off⟩

/-- The calendar month following `(y, m)`. -/
def nextMonthOf (y : Int) (m : Nat) : Int × Nat :=
  if m = 12 then (y + 1, 1) else (y, m + 1)

/-- Day-overflow normalization of `time.Date`: a day past the end of the
month rolls into the following month.  For `d ≤ 31` — every day produced by
a civil decomposition — one roll suffices, because every month has at least
28 days and the overflow is at most `31 - 28 = 3`. -/
def normDate (y : Int) (m : Nat) (d : Nat) : Int × Nat × Nat :=
  if d ≤ daysInMonth y m then (y, m, d)
  else ((nextMonthOf y m).1, (nextMonthOf y m).2, d - daysInMonth y m)

/-- `t.AddDate(0, 1, 0)`: decompose the local wall clock, add one month with
`time.Date` normalization, rebuild at the same local time of day. -/
def GoTime.addOneMonth (t : GoTime) : GoTime :=
  let p := civilFromDays t.dayNumber
  let q := nextMonthOf p.1 p.2.1
  let r := normDate q.1 q.2 p.2.2
  ⟨86400 * daysFromCivil r.1 r.2.1 r.2.2 + t.secOfDay - t.off, t.off⟩

/-! ### String parsing (the fragments of Go's `time` layouts the code uses) -/

/-- Split a character list at every occurrence of `sep`. -/
def splitChar (sep : Char) : List Char → List (List Char)
  | [] => [[]]
  | c :: cs =>
    let r := splitChar sep cs
    if c = sep then [] :: r
    else
      match r with
      | [] => [[c]]
      | a :: as => (c :: a) :: as

/-- Numeric value of a list of decimal digits. -/
def digitsVal (l : List Char) : Nat :=
  l.foldl (fun a c => a * 10 + (c.toNat - 48)) 0

/-- A non-empty run of at most `k` decimal digits? -/
def isDigits (k : Nat) (l : List Char) : Bool :=
  decide (1 ≤ l.length) && decide (l.length ≤ k) && l.all Char.isDigit

/-- Parse the `15:04` part of Go's `"2006-01-02 15:04"` layout: one or two
digits, a colon, one or two digits, nothing else; Go's range checks reject
hours above 23 and minutes above 59. -/
def parseHM (s : String) : Option (Nat × Nat) :=
  match splitChar ':' s.data with
  | [hs, ms] =>
    if isDigits 2 hs && isDigits 2 ms then
      let h := digitsVal hs
      let mi := digitsVal ms
      if h ≤ 23 && mi ≤ 59 then some (h, mi) else none
    else none
  | _ => none

/-- Source helper `parseTimeToMinutes` (`fmt.Sscanf(timeStr, "%d:%d")`):
reads two decimal numbers around a colon; a field that does not scan is left
at zero.  `Sscanf`'s sign and whitespace handling goes beyond the inputs the
repository feeds this helper and is not modelled. -/
def parseTimeToMinutes (timeStr : String) : Int :=
  match splitChar ':' timeStr.data with
  | [hs, ms] =>
    if hs.all Char.isDigit && ms.all Char.isDigit then
      (digitsVal hs : Int) * 60 + (digitsVal ms : Int)
    else 0
  | [hs] => if hs.all Char.isDigit then (digitsVal hs : Int) * 60 else 0
  | _ => 0

/-- Parse Go's `"2006-01-02"` layout: a four-digit year, one or two digit
month and day, with Go's month and day-in-month range checks. -/
def parseDateCivil (s : String) : Option (Int × Nat × Nat) :=
  match splitChar '-' s.data with
  | [ys, ms, ds] =>
    if isDigits 4 ys && decide (ys.length = 4) && isDigits 2 ms && isDigits 2 ds then
      let y : Int := (digitsVal ys : Int)
      let mo := digitsVal ms
      let d := digitsVal ds
      if 1 ≤ mo ∧ mo ≤ 12 ∧ 1 ≤ d ∧ d ≤ daysInMonth y mo then some (y, mo, d)
      else none
    else none
  | _ => none

/-- Parse Go's `time.RFC3339` layout `"2006-01-02T15:04:05Z07:00"`: a full
date and clock followed by an explicit zone suffix, either `Z` or `±HH:MM`
(fractional seconds are not modelled).  The result carries the instant the
string denotes and the offset it declares. -/
def parseRFC3339 (s : String) : Option GoTime :=
  match s.data with
  | y1 :: y2 :: y3 :: y4 :: '-' :: m1 :: m2 :: '-' :: d1 :: d2 :: 'T' ::
      h1 :: h2 :: ':' :: i1 :: i2 :: ':' :: s1 :: s2 :: rest =>
    if ([y1, y2, y3, y4].all Char.isDigit) && ([m1, m2].all Char.isDigit)
        && ([d1, d2].all Char.isDigit) && ([h1, h2].all Char.isDigit)
        && ([i1, i2].all Char.isDigit) && ([s1, s2].all Char.isDigit) then
      let y : Int := (digitsVal [y1, y2, y3, y4] : Int)
      let mo := digitsVal [m1, m2]
      let d := digitsVal [d1, d2]
      let hh := digitsVal [h1, h2]
      let mi := digitsVal [i1, i2]
      let ss := digitsVal [s1, s2]
      let zone : Option Int :=
        match rest with
        | ['Z'] => some 0
        | [c, o1, o2, ':', p1, p2] =>
          if ([o1, o2].all Char.isDigit) && ([p1, p2].all Char.isDigit) then
            let oh := digitsVal [o1, o2]
            let om := digitsVal [p1, p2]
            if oh ≤ 23 ∧ om ≤ 59 then
              if c = '+' then some ((oh * 3600 + om * 60 : Nat) : Int)
              else if c = '-' then some (-((oh * 3600 + om * 60 : Nat) : Int))
              else none
            else none
          else none
        | _ => none
      match zone with
      | none => none
      | some off =>
        if 1 ≤ mo ∧ mo ≤ 12 ∧ 1 ≤ d ∧ d ≤ daysInMonth y mo ∧ hh ≤ 23 ∧ mi ≤ 59 ∧ ss ≤ 59
        then some ⟨86400 * daysFromCivil y mo d + ((hh * 3600 + mi * 60 + ss : Nat) : Int) - off, off⟩
        else none
    else none
  | _ => none

/-! ### The decoded `schedule_data` map and the timezone service -/

/-- A JSON scalar of a decoded `schedule_data` map.  Go's `encoding/json`
decodes strings to `string` and numbers to `float64`; the numeric fields the
scheduler reads are whole numbers, modelled as `Int` (Go truncates the
`float64` with `int(...)`). -/
inductive JVal where
  | s (v : String)
  | n (v : Int)
deriving DecidableEq

/-- The decoded `schedule_data` JSON object, restricted to the keys the
scheduler reads.  An absent key — or a `schedule_data` string that does not
unmarshal at all — is `none`. -/
structure ScheduleData where
  timezone : Option JVal := none
  date_time : Option JVal := none
  time : Option JVal := none
  day_of_week : Option JVal := none
  day_of_month : Option JVal := none
  start_date : Option JVal := none
deriving DecidableEq

/-- `TimezoneService.ConvertToUTC`: `userTime.In(loc).UTC()`.  Note that
`In` and `UTC` only change the display zone, so the instant is preserved;
the call fails exactly when the zone name does not resolve. -/
def ConvertToUTC (userTime : GoTime) (userTimezone : String) : Except String GoTime :=
  let tz := if userTimezone = "" then "UTC" else userTimezone
  match loadLocation tz with
  | none => .error "invalid timezone"
  | some off => .ok ((userTime.inZone off).utc)

/-- `TimezoneService.ConvertFromUTC`: `utcTime.In(loc)`. -/
def ConvertFromUTC (utcTime : GoTime) (userTimezone : String) : Except String GoTime :=
  let tz := if userTimezone = "" then "UTC" else userTimezone
  match loadLocation tz with
  | none => .error "invalid timezone"
  | some off => .ok (utcTime.inZone off)

/-- `TimezoneService.ParseScheduleTime`: parse `schedule_data["date_time"]`
as RFC3339; if the string ends in `Z`, return the parsed instant as UTC;
otherwise pass the parsed instant through `ConvertToUTC`. -/
def ParseScheduleTime (scheduleData : ScheduleData) (userTimezone : String) :
    Except String GoTime :=
  match scheduleData.date_time with
  | some (JVal.s dateTimeStr) =>
    match parseRFC3339 dateTimeStr with
    | none => .error "failed to parse date_time"
    | some parsedTime =>
      if dateTimeStr.data.getLast? = some 'Z' then .ok parsedTime.utc
      else ConvertToUTC parsedTime userTimezone
  | _ => .error "missing or invalid date_time in schedule data"

/-! ### The recurrence calculator (scheduler service) -/

/-- `time.ParseInLocation("2006-01-02 15:04", date ++ " " ++ timeStr, loc)`
where the date part is rendered from civil components `y-m-d`: Go
re-validates the four-digit year, the month, and the day against the month,
parses `timeStr` as `HH:MM`, and places the wall clock at offset `off`. -/
def parseInLocationDateHM (y : Int) (m : Nat) (d : Int) (timeStr : String)
    (off : Int) : Except String GoTime :=
  match parseHM timeStr with
  | none => .error "parsing time: cannot parse"
  | some (h, mi) =>
    if 0 ≤ y ∧ y ≤ 9999 ∧ 1 ≤ m ∧ m ≤ 12 ∧ 1 ≤ d ∧ d ≤ (daysInMonth y m : Int) then
      .ok ⟨86400 * daysFromCivil y m d.toNat + ((h * 3600 + mi * 60 : Nat) : Int) - off, off⟩
    else .error "parsing time: day out of range"

/-- `calculateDailyNextRun`: build today-at-`timeStr` in the user's zone;
if that instant is before "now", add 24 hours; convert back to UTC. -/
def calculateDailyNextRun (timeStr userTimezone : String) (nowUTC : Int) :
    Except String GoTime := do
  let userNow ← ConvertFromUTC ⟨nowUTC, 0⟩ userTimezone
  let p := userNow.date
  match loadLocation userTimezone with
  | none => .error "unknown time zone"
  | some off => do
    let target ← parseInLocationDateHM p.1 p.2.1 (p.2.2 : Int) timeStr off
    let target := if target.epoch < userNow.epoch then target.add24h else target
    ConvertToUTC target userTimezone

/-- `calculateWeeklyNextRun`: days until the target weekday, pushing a full
week when the target weekday is today but its time of day has passed. -/
def calculateWeeklyNextRun (dayOfWeek : Int) (timeStr userTimezone : String)
    (nowUTC : Int) : Except String GoTime := do
  let userNow ← ConvertFromUTC ⟨nowUTC, 0⟩ userTimezone
  match loadLocation userTimezone with
  | none => .error "unknown time zone"
  | some off => do
    let currentWeekday := userNow.weekday
    let daysUntilTarget := Int.tmod (dayOfWeek - currentWeekday + 7) 7
    let daysUntilTarget :=
      if daysUntilTarget = 0 ∧ userNow.hour * 60 + userNow.minute ≥ parseTimeToMinutes timeStr
      then 7 else daysUntilTarget
    let targetDate := userNow.addDays daysUntilTarget
    let p := targetDate.date
    let target ← parseInLocationDateHM p.1 p.2.1 (p.2.2 : Int) timeStr off
    ConvertToUTC target userTimezone

/-- `calculateBiweeklyNextRun`: anchor at `start_date` (midnight, user
zone), take the whole elapsed 14-day cycles since the anchor (`int` of a
float division, i.e. truncation toward zero; float rounding is exact at
these magnitudes), shift to the requested weekday of that cycle, roll one
cycle when the candidate midnight lies before "now", and attach the time of
day. -/
def calculateBiweeklyNextRun (dayOfWeek : Int) (timeStr userTimezone startDate : String)
    (nowUTC : Int) : Except String GoTime := do
  let userNow ← ConvertFromUTC ⟨nowUTC, 0⟩ userTimezone
  match loadLocation userTimezone with
  | none => .error "unknown time zone"
  | some off =>
    match parseDateCivil startDate with
    | none => .error "parsing time: cannot parse start date"
    | some (sy, sm, sd) => do
      let start : GoTime := ⟨86400 * daysFromCivil sy sm sd - off, off⟩
      let weeksSinceStart := Int.tdiv (userNow.epoch - start.epoch) 1209600
      let nextStart := start.addDays (weeksSinceStart * 14)
      let nextTarget := nextStart.addDays (dayOfWeek - nextStart.weekday)
      let nextTarget :=
        if nextTarget.epoch < userNow.epoch then nextTarget.addDays 14 else nextTarget
      let p := nextTarget.date
      let target ← parseInLocationDateHM p.1 p.2.1 (p.2.2 : Int) timeStr off
      ConvertToUTC target userTimezone

/-- `calculateMonthlyNextRun`: `AddDate(0, 1, 0)` over "now" selects the
target year and month (with `time.Date` normalization), the requested day
is clamped to that month's length when it exceeds 28, and the time of day
is attached. -/
def calculateMonthlyNextRun (dayOfMonth : Int) (timeStr userTimezone : String)
    (nowUTC : Int) : Except String GoTime := do
  let userNow ← ConvertFromUTC ⟨nowUTC, 0⟩ userTimezone
  match loadLocation userTimezone with
  | none => .error "unknown time zone"
  | some off => do
    let nextMonthT := userNow.addOneMonth
    let p := nextMonthT.date
    let year := p.1
    let month := p.2.1
    let targetDay :=
      if dayOfMonth > 28 then
        (if dayOfMonth > (daysInMonth year month : Int) then (daysInMonth year month : Int)
         else dayOfMonth)
      else dayOfMonth
    let target ← parseInLocationDateHM year month targetDay timeStr off
    ConvertToUTC target userTimezone

/-- `calculateNextRunTime`: dispatch on the schedule type, extracting and
type-asserting the fields of `schedule_data` exactly as the source does. -/
def calculateNextRunTime (scheduleType : String) (scheduleData : ScheduleData)
    (userTimezone : String) (now : Int) : Except String GoTime :=
  if scheduleType = "once" then
    match ParseScheduleTime scheduleData userTimezone with
    | .error e => .error ("failed to parse schedule time: " ++ e)
    | .ok t => .ok t
  else if scheduleType = "daily" then
    match scheduleData.time with
    | some (JVal.s timeStr) => calculateDailyNextRun timeStr userTimezone now
    | _ => .error "missing or invalid time in daily schedule data"
  else if scheduleType = "weekly" then
    match scheduleData.day_of_week with
    | some (JVal.n dow) =>
      match scheduleData.time with
      | some (JVal.s timeStr) => calculateWeeklyNextRun dow timeStr userTimezone now
      | _ => .error "missing or invalid time in weekly schedule data"
    | _ => .error "missing or invalid day_of_week in weekly schedule data"
  else if scheduleType = "biweekly" then
    match scheduleData.day_of_week with
    | some (JVal.n dow) =>
      match scheduleData.time with
      | some (JVal.s timeStr) =>
        match scheduleData.start_date with
        | some (JVal.s startDate) =>
          calculateBiweeklyNextRun dow timeStr userTimezone startDate now
        | _ => .error "missing or invalid start_date in biweekly schedule data"
      | _ => .error "missing or invalid time in biweekly schedule data"
    | _ => .error "missing or invalid day_of_week in biweekly schedule data"
  else if scheduleType = "monthly" then
    match scheduleData.day_of_month with
    | some (JVal.n dom) =>
      match scheduleData.time with
      | some (JVal.s timeStr) => calculateMonthlyNextRun dom timeStr userTimezone now
      | _ => .error "missing or invalid time in monthly schedule data"
    | _ => .error "missing or invalid day_of_month in monthly schedule data"
  else .error ("unknown schedule type: " ++ scheduleType)

/-! ### The schedule store (scheduler service persistence operations) -/

/-- A `models.Schedule` row (the GORM bookkeeping timestamps `created_at`
and `updated_at` are omitted; the serialized `schedule_data` string is
carried in decoded form). -/
structure Schedule where
  id : Nat
  user_id : String
  name : String
  schedule_type : String
  schedule_data : ScheduleData
  is_active : Bool
  next_run_at : Option Int
  last_run_at : Option Int
  collection_id : Option Nat
  search_id : Option Nat
deriving DecidableEq

/-- A `models.ScheduleRun` row (its own `id` and `created_at`, generated by
the store, omitted). -/
structure ScheduleRun where
  schedule_id : Nat
  status : String
  started_at : Int
  completed_at : Option Int
  error_msg : Option String
deriving DecidableEq

/-- `GetDueSchedules`: active schedules with `next_run_at <= now`; a SQL
`NULL` in `next_run_at` never satisfies the comparison.  The field
projection of the `Select` clause is not modelled. -/
def GetDueSchedules (db : List Schedule) (now : Int) : List Schedule :=
  db.filter fun s =>
    s.is_active &&
      match s.next_run_at with
      | some t => decide (t ≤ now)
      | none => false

/-- `db.First(&schedule, scheduleID)`: the first row with the primary key. -/
def lookupSchedule (db : List Schedule) (scheduleID : Nat) : Option Schedule :=
  db.find? fun s => s.id == scheduleID

/-- `db.Save(&schedule)`: overwrite the row(s) with this primary key. -/
def saveSchedule (db : List Schedule) (s' : Schedule) : List Schedule :=
  db.map fun s => if s.id = s'.id then s' else s

/-- The timezone `UpdateScheduleNextRun` reads back from the stored
`schedule_data`: the `timezone` key when it is a non-empty string, else the
`"UTC"` fallback. -/
def scheduleTimezone (d : ScheduleData) : String :=
  match d.timezone with
  | some (JVal.s tz) => if tz = "" then "UTC" else tz
  | _ => "UTC"

/-- `UpdateScheduleNextRun`: re-read the schedule, recompute its next run
from the stored data, and only on success deactivate (type `once`) or
advance it, stamping `last_run_at = now` (UTC) in both cases.  Returns the
possibly-updated store together with the error, if any; on error the store
is returned unchanged, since the source returns before `db.Save`. -/
def UpdateScheduleNextRun (db : List Schedule) (scheduleID : Nat) (now : Int) :
    List Schedule × Option String :=
  match lookupSchedule db scheduleID with
  | none => (db, some "record not found")
  | some schedule =>
    let userTimezone := scheduleTimezone schedule.schedule_data
    match calculateNextRunTime schedule.schedule_type schedule.schedule_data
        userTimezone now with
    | .error e => (db, some e)
    | .ok nextRunAt =>
      let schedule' :=
        if schedule.schedule_type = "once" then
          { schedule with is_active := false, next_run_at := none,
                          last_run_at := some now }
        else
          { schedule with next_run_at := some nextRunAt.epoch,
                          last_run_at := some now }
      (saveSchedule db schedule', none)

/-- `RecordScheduleRun`: append a fresh `ScheduleRun` row (`db.Create`);
`completed_at` is stamped only for the two terminal statuses and
`error_msg` only when one is given. -/
def RecordScheduleRun (runs : List ScheduleRun) (scheduleID : Nat) (status : String)
    (errorMsg : Option String) (now : Int) : List ScheduleRun :=
  runs ++
    [{ schedule_id := scheduleID
       status := status
       started_at := now
       completed_at :=
         if status = "completed" ∨ status = "failed" then some now else none
       error_msg := errorMsg }]

/-- `DeleteSchedule`: `UPDATE schedules SET is_active = false WHERE id = ?
AND user_id = ?` — rows not matching the ownership predicate are untouched,
and updating zero rows is not an error (the function only reports store
failures, which are outside the model). -/
def DeleteSchedule (db : List Schedule) (scheduleID : Nat) (userID : String) :
    List Schedule :=
  db.map fun s =>
    if s.id = scheduleID ∧ s.user_id = userID then { s with is_active := false } else s

/-! ### The scheduler runner -/

/-- The state the runner acts on: the schedule table and the run audit
table. -/
structure RunnerState where
  schedules : List Schedule
  runs : List ScheduleRun
deriving DecidableEq

/-- One observable persistence call of an execution attempt. -/
inductive RunEvent where
  | recordRun (status : String) (errMsg : Option String)
  | advance
deriving DecidableEq

/-- `executeSchedule`: one execution attempt of a due schedule.  The write
of the run-start row may fail (`startOk`); payload resolution and job
submission (`executeScheduledJob`) are abstracted into their combined
outcome `jobErr` (`none` = success); the terminal run-row write may also
fail (`endOk` — its error is ignored by the source).  Returns the new state
together with the trace of persistence calls, in order; `now1` is the clock
at the start of the attempt and `now2` at its end. -/
def executeSchedule (st : RunnerState) (sched : Schedule) (startOk endOk : Bool)
    (jobErr : Option String) (now1 now2 : Int) : RunnerState × List RunEvent :=
  if startOk = false then
    (st, [RunEvent.recordRun "running" none])
  else
    let st1 : RunnerState :=
      { st with runs := RecordScheduleRun st.runs sched.id "running" none now1 }
    let status := if jobErr.isSome then "failed" else "completed"
    let st2 : RunnerState :=
      if endOk then
        { st1 with runs := RecordScheduleRun st1.runs sched.id status jobErr now2 }
      else st1
    let upd := UpdateScheduleNextRun st2.schedules sched.id now2
    ({ st2 with schedules := upd.1 },
      [RunEvent.recordRun "running" none, RunEvent.recordRun status jobErr,
        RunEvent.advance])

/-! ### Concrete fixtures -/

/-- A `once` schedule's decoded data: a UTC-suffixed `date_time`, no
explicit timezone key. -/
def onceData : ScheduleData := { date_time := some (JVal.s "2025-01-01T00:00:00Z") }

/-- A stored `once` schedule carrying `onceData`. -/
def onceSchedule : Schedule :=
  { id := 7, user_id := "alice", name := "one shot", schedule_type := "once",
    schedule_data := onceData, is_active := true, next_run_at := some 1735689600,
    last_run_at := none, collection_id := some 3, search_id := none }

/-- A `once` schedule's decoded data whose stored timezone does not
resolve. -/
def badOnceData : ScheduleData :=
  { timezone := some (JVal.s "Mars/Olympus"),
    date_time := some (JVal.s "2025-01-01T00:00:00+05:30") }

/-- A stored `once` schedule carrying `badOnceData`. -/
def badOnceSchedule : Schedule :=
  { id := 9, user_id := "bob", name := "bad zone", schedule_type := "once",
    schedule_data := badOnceData, is_active := true, next_run_at := some 0,
    last_run_at := none, collection_id := none, search_id := none }

/-- A biweekly schedule's decoded data: anchored at Wednesday 2024-01-03,
Sundays at 10:00, zone UTC. -/
def bwData : ScheduleData :=
  { timezone := some (JVal.s "UTC"), time := some (JVal.s "10:00"),
    day_of_week := some (JVal.n 0), start_date := some (JVal.s "2024-01-03") }

/-- A stored biweekly schedule carrying `bwData`, due at 2024-01-14
12:00:00 UTC. -/
def bwSchedule : Schedule :=
  { id := 11, user_id := "carol", name := "biweekly sunday",
    schedule_type := "biweekly", schedule_data := bwData, is_active := true,
    next_run_at := some 1705233600, last_run_at := none, collection_id := none,
    search_id := none }

/-- `bwSchedule` as the advance at 2024-01-14 12:00:00 UTC rewrites it. -/
def bwAdvanced : Schedule :=
  { bwSchedule with next_run_at := some 1705226400, last_run_at := some 1705233600 }

/-! ### Characterizations of the embedded operations -/

/-- `loadLocation` is unchanged by the empty-name normalization performed by
the timezone service (`LoadLocation("")` is UTC as well). -/
theorem loadLocation_norm (tz : String) :
    loadLocation (if tz = "" then "UTC" else tz) = loadLocation tz := by
  by_cases h : tz = ""
  · rw [if_pos h, h]
    rfl
  · rw [if_neg h]

/-- A successful `ConvertFromUTC` only sets the display zone. -/
theorem ConvertFromUTC_ok {t : GoTime} {tz : String} {off : Int}
    (h : loadLocation tz = some off) :
    ConvertFromUTC t tz = .ok (t.inZone off) := by
  simp only [ConvertFromUTC]
  rw [loadLocation_norm, h]

/-- A successful `ConvertToUTC` preserves the instant. -/
theorem ConvertToUTC_ok {t : GoTime} {tz : String} {off : Int}
    (h : loadLocation tz = some off) :
    ConvertToUTC t tz = .ok ⟨t.epoch, 0⟩ := by
  simp only [ConvertToUTC]
  rw [loadLocation_norm, h]
  rfl

/-- `ConvertFromUTC` fails exactly when the zone does not resolve. -/
theorem ConvertFromUTC_err {t : GoTime} {tz : String}
    (h : loadLocation tz = none) :
    ConvertFromUTC t tz = .error "invalid timezone" := by
  simp only [ConvertFromUTC]
  rw [loadLocation_norm, h]

/-- A round day number recomposes: `daysFromCivil` applied to the civil
decomposition of a day number gives back the day number. -/
theorem dfc_cfd (n : Int) :
    daysFromCivil (civilFromDays n).1 (civilFromDays n).2.1 (civilFromDays n).2.2 = n :=
  daysFromCivil_civilFromDays rfl

/-- Success characterization of `calculateDailyNextRun`: the zone resolves,
the time string parses, and the result is today's (or, if that is already
past, tomorrow's) `HH:MM` local wall clock converted to UTC. -/
theorem calculateDailyNextRun_ok {timeStr tz : String} {now : Int} {r : GoTime}
    (hok : calculateDailyNextRun timeStr tz now = .ok r) :
    ∃ off h mi, loadLocation tz = some off ∧ parseHM timeStr = some (h, mi) ∧
      r = ⟨(let t0 := 86400 * ((now + off) / 86400)
                + ((h * 3600 + mi * 60 : Nat) : Int) - off;
            if t0 < now then t0 + 86400 else t0), 0⟩ := by
  unfold calculateDailyNextRun at hok
  cases hload : loadLocation tz with
  | none =>
    rw [ConvertFromUTC_err hload] at hok
    simp [Bind.bind, Except.bind] at hok
  | some off =>
    rw [ConvertFromUTC_ok hload] at hok
    simp only [Bind.bind, Except.bind, GoTime.date, GoTime.dayNumber, GoTime.localSecs,
      GoTime.inZone, hload] at hok
    unfold parseInLocationDateHM at hok
    cases hhm : parseHM timeStr with
    | none => rw [hhm] at hok; simp at hok
    | some p =>
      obtain ⟨h, mi⟩ := p
      rw [hhm] at hok
      refine ⟨off, h, mi, rfl, rfl, ?_⟩
      simp only [Int.toNat_natCast, dfc_cfd] at hok
      split at hok
      · simp at hok
      · rename_i val heq
        split at heq
        · simp only [Except.ok.injEq] at heq
          subst heq
          simp only [] at hok
          split at hok <;>
            · rename_i hcond
              rw [ConvertToUTC_ok hload] at hok
              simp only [GoTime.add24h, Except.ok.injEq] at hok
              subst hok
              simp only []
              split <;> first | rfl | omega
        · simp at heq

/-- Success characterization of `ParseScheduleTime`: on success the result
is exactly the instant denoted by the `date_time` string (whose parse
carries an explicit offset), displayed in UTC — the `userTimezone` argument
never shifts it. -/
theorem ParseScheduleTime_ok {data : ScheduleData} {tz : String} {r : GoTime}
    (hok : ParseScheduleTime data tz = .ok r) :
    ∃ str t, data.date_time = some (JVal.s str) ∧ parseRFC3339 str = some t ∧
      r = ⟨t.epoch, 0⟩ := by
  unfold ParseScheduleTime at hok
  split at hok
  · rename_i dateTimeStr hdt
    split at hok
    · simp at hok
    · rename_i t hp
      split at hok
      · simp only [Except.ok.injEq] at hok
        exact ⟨dateTimeStr, t, hdt, hp, by rw [← hok]; rfl⟩
      · cases hload : loadLocation tz with
        | none =>
          rw [show ConvertToUTC t tz = .error "invalid timezone" from by
            simp only [ConvertToUTC]; rw [loadLocation_norm, hload]] at hok
          simp at hok
        | some off =>
          rw [ConvertToUTC_ok hload] at hok
          simp only [Except.ok.injEq] at hok
          exact ⟨dateTimeStr, t, hdt, hp, hok.symm⟩
  · simp at hok

/-- Success characterization of `calculateWeeklyNextRun`. -/
theorem calculateWeeklyNextRun_ok {dow : Int} {timeStr tz : String} {now : Int} {r : GoTime}
    (hok : calculateWeeklyNextRun dow timeStr tz now = .ok r) :
    ∃ off h mi, loadLocation tz = some off ∧ parseHM timeStr = some (h, mi) ∧
      r = ⟨(let du0 := Int.tmod (dow - ((now + off) / 86400 + 4) % 7 + 7) 7;
            let du := if du0 = 0 ∧
                (now + off) % 86400 / 3600 * 60 + (now + off) % 86400 % 3600 / 60 ≥
                  parseTimeToMinutes timeStr
              then 7 else du0;
            86400 * ((now + du * 86400 + off) / 86400)
              + ((h * 3600 + mi * 60 : Nat) : Int) - off), 0⟩ := by
  unfold calculateWeeklyNextRun at hok
  cases hload : loadLocation tz with
  | none =>
    rw [ConvertFromUTC_err hload] at hok
    simp [Bind.bind, Except.bind] at hok
  | some off =>
    rw [ConvertFromUTC_ok hload] at hok
    simp only [Bind.bind, Except.bind, hload, GoTime.date, GoTime.dayNumber,
      GoTime.localSecs, GoTime.inZone, GoTime.hour, GoTime.minute, GoTime.weekday,
      GoTime.secOfDay, GoTime.addDays] at hok
    unfold parseInLocationDateHM at hok
    cases hhm : parseHM timeStr with
    | none => rw [hhm] at hok; simp at hok
    | some p =>
      obtain ⟨h, mi⟩ := p
      rw [hhm] at hok
      refine ⟨off, h, mi, rfl, rfl, ?_⟩
      simp only [Int.toNat_natCast, dfc_cfd] at hok
      split at hok
      · simp at hok
      · rename_i val heq
        split at heq
        · rename_i hcond
          split at heq
          · simp only [Except.ok.injEq] at heq
            subst heq
            rw [ConvertToUTC_ok hload] at hok
            simp only [Except.ok.injEq] at hok
            subst hok
            simp only []
            rw [if_pos hcond]
          · simp at heq
        · rename_i hcond
          split at heq
          · simp only [Except.ok.injEq] at heq
            subst heq
            rw [ConvertToUTC_ok hload] at hok
            simp only [Except.ok.injEq] at hok
            subst hok
            simp only []
            rw [if_neg hcond]
          · simp at heq

/-- Normalizing a possibly day-overflowed date yields a valid date, for
day overflows of at most three days past a month end. -/
theorem normDate_valid {y : Int} {m d : Nat}
    (hm1 : 1 ≤ m) (hm2 : m ≤ 12) (hd1 : 1 ≤ d) (hd31 : d ≤ 31) :
    1 ≤ (normDate y m d).2.1 ∧ (normDate y m d).2.1 ≤ 12 ∧
      1 ≤ (normDate y m d).2.2 ∧
      (normDate y m d).2.2 ≤ daysInMonth (normDate y m d).1 (normDate y m d).2.1 := by
  unfold normDate
  split
  · exact ⟨hm1, hm2, hd1, by assumption⟩
  · rename_i hgt
    unfold nextMonthOf
    have hge := daysInMonth_ge y m
    have hle := daysInMonth_le y m
    by_cases h12 : m = 12
    · rw [if_pos h12]
      simp only []
      have h3 : daysInMonth (y + 1) 1 = 31 := by norm_num [daysInMonth]
      subst h12
      exact ⟨by norm_num, by norm_num, by omega, by rw [h3]; omega⟩
    · rw [if_neg h12]
      simp only []
      have hge2 := daysInMonth_ge y (m + 1)
      exact ⟨by omega, by omega, by omega, by omega⟩

/-- Day number of the local instant rebuilt by `addOneMonth`. -/
theorem addOneMonth_dayNumber (A s o : Int) (h0 : 0 ≤ s) (h1 : s < 86400) :
    (86400 * A + s - o + o) / 86400 = A := by omega

/-- Day number after one `addDays` step from a local midnight. -/
theorem bw_day2 (S o a : Int) : (86400 * S - o + a * 86400 + o) / 86400 = S + a := by
  omega

/-- Day number after two `addDays` steps from a local midnight. -/
theorem bw_day3 (S o a b : Int) :
    (86400 * S - o + a * 86400 + b * 86400 + o) / 86400 = S + a + b := by omega

/-- Day number after three `addDays` steps from a local midnight. -/
theorem bw_day4 (S o a b c : Int) :
    (86400 * S - o + a * 86400 + b * 86400 + c * 86400 + o) / 86400 = S + a + b + c := by
  omega

/-- Success characterization of `calculateMonthlyNextRun`: the target month
is the `time.Date`-normalized month after "now" (so a local Jan 29–31 rolls
through February into March), the day is the requested one clamped into the
month when above 28, and the run is that local date at `HH:MM`. -/
theorem calculateMonthlyNextRun_ok {dom : Int} {timeStr tz : String} {now : Int}
    {r : GoTime} (hok : calculateMonthlyNextRun dom timeStr tz now = .ok r) :
    ∃ off h mi y2 m2 d2, loadLocation tz = some off ∧ parseHM timeStr = some (h, mi) ∧
      (let p := civilFromDays ((now + off) / 86400);
        normDate (nextMonthOf p.1 p.2.1).1 (nextMonthOf p.1 p.2.1).2 p.2.2 = (y2, m2, d2)) ∧
      (let td : Int := if 28 < dom then
            (if (daysInMonth y2 m2 : Int) < dom then (daysInMonth y2 m2 : Int) else dom)
          else dom;
        1 ≤ td ∧ td ≤ (daysInMonth y2 m2 : Int) ∧
          r = ⟨86400 * daysFromCivil y2 m2 td.toNat
                + ((h * 3600 + mi * 60 : Nat) : Int) - off, 0⟩) := by
  unfold calculateMonthlyNextRun at hok
  cases hload : loadLocation tz with
  | none =>
    rw [ConvertFromUTC_err hload] at hok
    simp [Bind.bind, Except.bind] at hok
  | some off =>
    rw [ConvertFromUTC_ok hload] at hok
    simp only [Bind.bind, Except.bind, hload, GoTime.addOneMonth, GoTime.date,
      GoTime.dayNumber, GoTime.localSecs, GoTime.secOfDay, GoTime.inZone] at hok
    rw [addOneMonth_dayNumber _ _ _ (by omega) (by omega)] at hok
    rcases hcp : civilFromDays ((now + off) / 86400) with ⟨py, pm, pd⟩
    have hp := civilFromDays_valid hcp
    rw [hcp] at hok
    simp only [] at hok
    rcases hq : nextMonthOf py pm with ⟨qy, qm⟩
    have hqv : 1 ≤ qm ∧ qm ≤ 12 := by
      unfold nextMonthOf at hq
      split at hq
      · simp only [Prod.mk.injEq] at hq
        omega
      · simp only [Prod.mk.injEq] at hq
        have := hp.2.1
        omega
    rw [hq] at hok
    simp only [] at hok
    rcases hr : normDate qy qm pd with ⟨ry, rm, rd⟩
    have hrv := @normDate_valid qy qm pd hqv.1 hqv.2
      hp.2.2.1 (le_trans hp.2.2.2 (daysInMonth_le _ _))
    rw [hr] at hrv hok
    simp only [] at hrv hok
    rw [civilFromDays_daysFromCivil hrv.1 hrv.2.1 hrv.2.2.1 hrv.2.2.2] at hok
    simp only [] at hok
    unfold parseInLocationDateHM at hok
    cases hhm : parseHM timeStr with
    | none => rw [hhm] at hok; simp at hok
    | some q =>
      obtain ⟨h, mi⟩ := q
      rw [hhm] at hok
      refine ⟨off, h, mi, ry, rm, rd, rfl, rfl, ?_, ?_⟩
      · show normDate (nextMonthOf (civilFromDays ((now + off) / 86400)).1
            (civilFromDays ((now + off) / 86400)).2.1).1
            (nextMonthOf (civilFromDays ((now + off) / 86400)).1
              (civilFromDays ((now + off) / 86400)).2.1).2
            (civilFromDays ((now + off) / 86400)).2.2 = (ry, rm, rd)
        rw [hcp]
        simp only []
        rw [hq]
        exact hr
      · split at hok
        · simp at hok
        · rename_i val heq
          split at heq
          · rename_i hnone
            exact Option.noConfusion hnone
          · rename_i h2 mi2 hsome
            simp only [Option.some.injEq, Prod.mk.injEq] at hsome
            obtain ⟨hh2, hmi2⟩ := hsome
            subst hh2
            subst hmi2
            split at heq
            · rename_i hdom
              split at heq
              · rename_i hclamp
                split at heq
                · rename_i hvalid
                  simp only [Except.ok.injEq] at heq
                  subst heq
                  rw [ConvertToUTC_ok hload] at hok
                  simp only [Except.ok.injEq] at hok
                  subst hok
                  rw [if_pos hdom, if_pos hclamp]
                  exact ⟨hvalid.2.2.2.2.1, hvalid.2.2.2.2.2, rfl⟩
                · simp at heq
              · rename_i hclamp
                split at heq
                · rename_i hvalid
                  simp only [Except.ok.injEq] at heq
                  subst heq
                  rw [ConvertToUTC_ok hload] at hok
                  simp only [Except.ok.injEq] at hok
                  subst hok
                  rw [if_pos hdom, if_neg hclamp]
                  exact ⟨hvalid.2.2.2.2.1, hvalid.2.2.2.2.2, rfl⟩
                · simp at heq
            · rename_i hdom
              split at heq
              · rename_i hvalid
                simp only [Except.ok.injEq] at heq
                subst heq
                rw [ConvertToUTC_ok hload] at hok
                simp only [Except.ok.injEq] at hok
                subst hok
                rw [if_neg hdom]
                exact ⟨hvalid.2.2.2.2.1, hvalid.2.2.2.2.2, rfl⟩
              · simp at heq

/-- Success characterization of `calculateBiweeklyNextRun`: anchored at the
parsed `start_date`, truncated elapsed 14-day cycles select the base week;
the candidate day is that week's day shifted to weekday `dow`; one cycle is
added exactly when the candidate's local midnight is strictly before "now";
the clock `HH:MM` is attached afterwards. -/
theorem calculateBiweeklyNextRun_ok {dow : Int} {timeStr tz startDate : String}
    {now : Int} {r : GoTime}
    (hok : calculateBiweeklyNextRun dow timeStr tz startDate now = .ok r) :
    ∃ off h mi sy sm sd, loadLocation tz = some off ∧ parseHM timeStr = some (h, mi) ∧
      parseDateCivil startDate = some (sy, sm, sd) ∧
      (let S := daysFromCivil sy sm sd;
        let k := Int.tdiv (now - (86400 * S - off)) 1209600;
        let wd := (S + k * 14 + 4) % 7;
        (86400 * S - off + k * 14 * 86400 + (dow - wd) * 86400 < now →
          r = ⟨86400 * (S + k * 14 + (dow - wd) + 14)
                + ((h * 3600 + mi * 60 : Nat) : Int) - off, 0⟩)
        ∧ (¬ 86400 * S - off + k * 14 * 86400 + (dow - wd) * 86400 < now →
          r = ⟨86400 * (S + k * 14 + (dow - wd))
                + ((h * 3600 + mi * 60 : Nat) : Int) - off, 0⟩)) := by
  unfold calculateBiweeklyNextRun at hok
  cases hload : loadLocation tz with
  | none =>
    rw [ConvertFromUTC_err hload] at hok
    simp [Bind.bind, Except.bind] at hok
  | some off =>
    rw [ConvertFromUTC_ok hload] at hok
    simp only [Bind.bind, Except.bind, hload, GoTime.inZone] at hok
    split at hok
    · simp at hok
    · rename_i sy sm sd hpd
      simp only [Bind.bind, Except.bind, GoTime.addDays, GoTime.weekday,
        GoTime.dayNumber, GoTime.localSecs, GoTime.date, GoTime.inZone] at hok
      rw [bw_day2] at hok
      unfold parseInLocationDateHM at hok
      cases hhm : parseHM timeStr with
      | none => rw [hhm] at hok; simp at hok
      | some q =>
        obtain ⟨h, mi⟩ := q
        rw [hhm] at hok
        refine ⟨off, h, mi, sy, sm, sd, rfl, rfl, hpd, ?_⟩
        split at hok
        · simp at hok
        · rename_i val heq
          split at heq
          · rename_i hnone
            exact Option.noConfusion hnone
          · rename_i h2 mi2 hsome
            simp only [Option.some.injEq, Prod.mk.injEq] at hsome
            obtain ⟨hh2, hmi2⟩ := hsome
            subst hh2
            subst hmi2
            split at heq
            · rename_i hcond
              simp only [] at heq
              rw [bw_day4] at heq
              simp only [Int.toNat_natCast, dfc_cfd] at heq
              split at heq
              · simp only [Except.ok.injEq] at heq
                subst heq
                rw [ConvertToUTC_ok hload] at hok
                simp only [Except.ok.injEq] at hok
                subst hok
                simp only []
                exact ⟨fun _ => trivial, fun hn => absurd hcond hn⟩
              · simp at heq
            · rename_i hcond
              simp only [] at heq
              rw [bw_day3] at heq
              simp only [Int.toNat_natCast, dfc_cfd] at heq
              split at heq
              · simp only [Except.ok.injEq] at heq
                subst heq
                rw [ConvertToUTC_ok hload] at hok
                simp only [Except.ok.injEq] at hok
                subst hok
                simp only []
                exact ⟨fun hc => absurd hc hcond, fun _ => trivial⟩
              · simp at heq

/-- A row found by primary key carries that key. -/
theorem lookupSchedule_id {db : List Schedule} {i : Nat} {s : Schedule}
    (h : lookupSchedule db i = some s) : s.id = i := by
  have := List.find?_some h
  simpa using this

/-- On successful recomputation, `UpdateScheduleNextRun` saves exactly the
advanced (or, for `once`, retired) row and reports no error. -/
theorem UpdateScheduleNextRun_ok {db : List Schedule} {scheduleID : Nat} {now : Int}
    {s : Schedule} {t : GoTime}
    (hfind : lookupSchedule db scheduleID = some s)
    (hcalc : calculateNextRunTime s.schedule_type s.schedule_data
      (scheduleTimezone s.schedule_data) now = .ok t) :
    UpdateScheduleNextRun db scheduleID now =
      (saveSchedule db
        (if s.schedule_type = "once" then
          { s with is_active := false, next_run_at := none, last_run_at := some now }
        else
          { s with next_run_at := some t.epoch, last_run_at := some now }), none) := by
  unfold UpdateScheduleNextRun
  rw [hfind]
  simp only []
  rw [hcalc]

/-- On failed recomputation, `UpdateScheduleNextRun` reports the error and
performs no write. -/
theorem UpdateScheduleNextRun_err {db : List Schedule} {scheduleID : Nat} {now : Int}
    {s : Schedule} {e : String}
    (hfind : lookupSchedule db scheduleID = some s)
    (hcalc : calculateNextRunTime s.schedule_type s.schedule_data
      (scheduleTimezone s.schedule_data) now = .error e) :
    UpdateScheduleNextRun db scheduleID now = (db, some e) := by
  unfold UpdateScheduleNextRun
  rw [hfind]
  simp only []
  rw [hcalc]

/-- When `parseHM` accepts a time string, `parseTimeToMinutes` reads the
same clock as minutes since midnight. -/
theorem parseHM_minutes {timeStr : String} {h mi : Nat}
    (hp : parseHM timeStr = some (h, mi)) :
    parseTimeToMinutes timeStr = (h : Int) * 60 + (mi : Int) := by
  unfold parseHM at hp
  split at hp
  · rename_i hs ms heq
    simp only [] at hp
    split at hp
    · rename_i hdig
      split at hp
      · simp only [Option.some.injEq, Prod.mk.injEq] at hp
        obtain ⟨hh, hmi⟩ := hp
        have hall : (hs.all Char.isDigit && ms.all Char.isDigit) = true := by
          simp only [isDigits, Bool.and_eq_true, decide_eq_true_eq] at hdig
          simp only [Bool.and_eq_true]
          exact ⟨hdig.1.2, hdig.2.2⟩
        unfold parseTimeToMinutes
        rw [heq]
        show (if hs.all Char.isDigit && ms.all Char.isDigit then
            (digitsVal hs : Int) * 60 + (digitsVal ms : Int) else 0)
          = (h : Int) * 60 + (mi : Int)
        rw [if_pos hall, hh, hmi]
      · exact Option.noConfusion hp
    · exact Option.noConfusion hp
  · exact Option.noConfusion hp

/-- The first day of the month after `(y, m)` is the day after `(y, m)`'s
last day. -/
theorem nextMonthOf_first_day (y : Int) (m : Nat) (hm1 : 1 ≤ m) (hm2 : m ≤ 12) :
    daysFromCivil (nextMonthOf y m).1 (nextMonthOf y m).2 1
      = daysFromCivil y m (daysInMonth y m) + 1 := by
  have hnm := daysFromCivil_next_month y m hm1 hm2
  unfold nextMonthOf
  by_cases h12 : m = 12
  · rw [if_pos h12, if_pos h12] at hnm
    rw [if_pos h12]
    exact hnm
  · rw [if_neg h12, if_neg h12] at hnm
    rw [if_neg h12]
    exact hnm

/-- The day selected by the monthly calculator — any day of the
`time.Date`-normalized month after a valid civil date — lies strictly after
that date. -/
theorem daysFromCivil_target_lt {py qy y2 : Int} {pm pd qm m2 d2 : Nat} (td : Int)
    (hpv : 1 ≤ pm ∧ pm ≤ 12 ∧ 1 ≤ pd ∧ pd ≤ daysInMonth py pm)
    (hq : nextMonthOf py pm = (qy, qm))
    (hnorm : normDate qy qm pd = (y2, m2, d2))
    (htd1 : 1 ≤ td) :
    daysFromCivil py pm pd < daysFromCivil y2 m2 td.toNat := by
  have hqm : 1 ≤ qm ∧ qm ≤ 12 := by
    unfold nextMonthOf at hq
    split at hq
    · simp only [Prod.mk.injEq] at hq
      omega
    · simp only [Prod.mk.injEq] at hq
      omega
  have hB : daysFromCivil qy qm 1 = daysFromCivil py pm (daysInMonth py pm) + 1 := by
    have := nextMonthOf_first_day py pm hpv.1 hpv.2.1
    rw [hq] at this
    exact this
  have hAp : daysFromCivil py pm pd = daysFromCivil py pm 1 + (pd : Int) - 1 :=
    daysFromCivil_day py pm pd hpv.2.2.1
  have hAdim : daysFromCivil py pm (daysInMonth py pm)
      = daysFromCivil py pm 1 + (daysInMonth py pm : Int) - 1 :=
    daysFromCivil_day py pm (daysInMonth py pm) (by have := daysInMonth_ge py pm; omega)
  have htdN : 1 ≤ td.toNat := by omega
  have hpdim := hpv.2.2.2
  unfold normDate at hnorm
  split at hnorm
  · rename_i hle
    simp only [Prod.mk.injEq] at hnorm
    obtain ⟨hy2, hm2, _⟩ := hnorm
    subst hy2
    subst hm2
    have hF : daysFromCivil qy qm td.toNat = daysFromCivil qy qm 1 + (td.toNat : Int) - 1 :=
      daysFromCivil_day qy qm td.toNat htdN
    omega
  · rename_i hgt
    rcases hq2 : nextMonthOf qy qm with ⟨ry, rm⟩
    rw [hq2] at hnorm
    simp only [Prod.mk.injEq] at hnorm
    obtain ⟨hy2, hm2, _⟩ := hnorm
    have hC : daysFromCivil y2 m2 1 = daysFromCivil qy qm (daysInMonth qy qm) + 1 := by
      have hfd := nextMonthOf_first_day qy qm hqm.1 hqm.2
      rw [hq2] at hfd
      rw [← hy2, ← hm2]
      exact hfd
    have hQdim : daysFromCivil qy qm (daysInMonth qy qm)
        = daysFromCivil qy qm 1 + (daysInMonth qy qm : Int) - 1 :=
      daysFromCivil_day qy qm (daysInMonth qy qm) (by have := daysInMonth_ge qy qm; omega)
    have hF : daysFromCivil y2 m2 td.toNat = daysFromCivil y2 m2 1 + (td.toNat : Int) - 1 :=
      daysFromCivil_day y2 m2 td.toNat htdN
    have hge := daysInMonth_ge qy qm
    omega

/-! ### The claims -/

/-- Claim C9 (confirmed): `DeleteSchedule` called with a user that does not
own the schedule changes nothing and reports no error (no distinction
between "not found" and "not yours" is surfaced, the model returns no error
in either case by construction); called by the owner it sets `is_active` to
false and leaves every other field unchanged; and repeating the call is
idempotent. -/
theorem C9_delete_ownership (db : List Schedule) (scheduleID : Nat) (userID : String) :
    ((∀ s ∈ db, ¬(s.id = scheduleID ∧ s.user_id = userID)) →
        DeleteSchedule db scheduleID userID = db)
      ∧ (∀ s ∈ db, ¬(s.id = scheduleID ∧ s.user_id = userID) →
          s ∈ DeleteSchedule db scheduleID userID)
      ∧ (∀ s ∈ db, s.id = scheduleID → s.user_id = userID →
          { s with is_active := false } ∈ DeleteSchedule db scheduleID userID)
      ∧ DeleteSchedule (DeleteSchedule db scheduleID userID) scheduleID userID
          = DeleteSchedule db scheduleID userID := by
  refine ⟨?_, ?_, ?_, ?_⟩
  · intro hnone
    unfold DeleteSchedule
    have : db.map (fun s =>
        if s.id = scheduleID ∧ s.user_id = userID then { s with is_active := false }
        else s) = db.map id := by
      apply List.map_congr_left
      intro s hs
      rw [if_neg (hnone s hs)]
      rfl
    rw [this, List.map_id]
  · intro s hs hno
    unfold DeleteSchedule
    exact List.mem_map.mpr ⟨s, hs, by simp [hno]⟩
  · intro s hs h1 h2
    unfold DeleteSchedule
    exact List.mem_map.mpr ⟨s, hs, by simp [h1, h2]⟩
  · unfold DeleteSchedule
    rw [List.map_map]
    apply List.map_congr_left
    intro s _
    by_cases h : s.id = scheduleID ∧ s.user_id = userID
    · simp [h]
    · simp [h]

/-- Claim C10 (confirmed): when the recomputation inside
`UpdateScheduleNextRun` fails (unresolvable stored timezone, missing or
ill-typed field), the error is returned before any write: `is_active`,
`next_run_at` and `last_run_at` are unchanged, a `once` schedule is not
deactivated, and the due-schedule query returns exactly what it returned
before at every instant. -/
theorem C10_calc_error_no_write {db : List Schedule} {scheduleID : Nat}
    {now : Int} {s : Schedule} {e : String}
    (hfind : lookupSchedule db scheduleID = some s)
    (hcalc : calculateNextRunTime s.schedule_type s.schedule_data
      (scheduleTimezone s.schedule_data) now = .error e) :
    UpdateScheduleNextRun db scheduleID now = (db, some e)
      ∧ ∀ later : Int, GetDueSchedules (UpdateScheduleNextRun db scheduleID now).1 later
          = GetDueSchedules db later := by
  have h := UpdateScheduleNextRun_err hfind hcalc
  exact ⟨h, fun later => by rw [h]⟩

/-- Claim C3 (confirmed): after a successful advance-or-retire of a `once`
schedule, the stored row has `is_active = false`, `next_run_at = null` and
`last_run_at` stamped with the current UTC instant, and the due-schedule
query never returns that schedule again at any later instant. -/
theorem C3_once_deactivation {db : List Schedule} {scheduleID : Nat} {now : Int}
    {s : Schedule} {t : GoTime}
    (hfind : lookupSchedule db scheduleID = some s)
    (honce : s.schedule_type = "once")
    (hcalc : calculateNextRunTime s.schedule_type s.schedule_data
      (scheduleTimezone s.schedule_data) now = .ok t) :
    (∀ row ∈ (UpdateScheduleNextRun db scheduleID now).1, row.id = scheduleID →
        row.is_active = false ∧ row.next_run_at = none ∧ row.last_run_at = some now)
      ∧ ∀ later : Int,
          ∀ row ∈ GetDueSchedules (UpdateScheduleNextRun db scheduleID now).1 later,
            row.id ≠ scheduleID := by
  have h := UpdateScheduleNextRun_ok hfind hcalc
  rw [if_pos honce] at h
  rw [h]
  simp only []
  have hid := lookupSchedule_id hfind
  have hmain : ∀ row ∈ saveSchedule db
      { s with is_active := false, next_run_at := none, last_run_at := some now },
      row.id = scheduleID →
      row.is_active = false ∧ row.next_run_at = none ∧ row.last_run_at = some now := by
    intro row hrow hrid
    unfold saveSchedule at hrow
    rw [List.mem_map] at hrow
    obtain ⟨x, hx, hfx⟩ := hrow
    by_cases hxid : x.id =
        ({ s with is_active := false, next_run_at := none, last_run_at := some now
          } : Schedule).id
    · rw [if_pos hxid] at hfx
      rw [← hfx]
      exact ⟨rfl, rfl, rfl⟩
    · rw [if_neg hxid] at hfx
      exfalso
      apply hxid
      rw [hfx, hrid]
      exact hid.symm
  refine ⟨hmain, ?_⟩
  intro later row hrow hrid
  unfold GetDueSchedules at hrow
  rw [List.mem_filter] at hrow
  obtain ⟨hmem, hpred⟩ := hrow
  obtain ⟨ha, hn, _⟩ := hmain row hmem hrid
  rw [ha, hn] at hpred
  simp at hpred

/-- Claim C4 (corrected, amended form): once the run-start record write of
an execution attempt succeeds, the attempt invokes the next-run advance
exactly once and as its last persistence call, for every
payload/submission outcome and whether or not the terminal run-row write
succeeds; and whenever the schedule's stored data recomputes successfully
(recurring types), the stored row's `next_run_at` is overwritten with the
freshly computed instant.  That overwrite alone is no progress guarantee:
the recomputed instant itself can lie in the past (biweekly), leaving the
schedule due with a past `next_run_at`. -/
theorem C4_advance_exactly_once_and_last (st : RunnerState) (sched : Schedule)
    (endOk : Bool) (jobErr : Option String) (now1 now2 : Int) :
    ((executeSchedule st sched true endOk jobErr now1 now2).2.countP
        (fun ev => decide (ev = RunEvent.advance)) = 1)
      ∧ (executeSchedule st sched true endOk jobErr now1 now2).2.getLast? =
          some RunEvent.advance
      ∧ (∀ s t, lookupSchedule st.schedules sched.id = some s →
          s.schedule_type ≠ "once" →
          calculateNextRunTime s.schedule_type s.schedule_data
            (scheduleTimezone s.schedule_data) now2 = .ok t →
          ∀ row ∈ (executeSchedule st sched true endOk jobErr now1 now2).1.schedules,
            row.id = sched.id → row.next_run_at = some t.epoch) := by
  have hev : (executeSchedule st sched true endOk jobErr now1 now2).2 =
      [RunEvent.recordRun "running" none,
        RunEvent.recordRun (if jobErr.isSome then "failed" else "completed") jobErr,
        RunEvent.advance] := by
    unfold executeSchedule
    simp
  have hsch : (executeSchedule st sched true endOk jobErr now1 now2).1.schedules =
      (UpdateScheduleNextRun st.schedules sched.id now2).1 := by
    unfold executeSchedule
    cases endOk <;> simp
  refine ⟨?_, ?_, ?_⟩
  · rw [hev]
    simp [List.countP_cons]
  · rw [hev]
    rfl
  · intro s t hfind hnotonce hcalc row hrow hrid
    rw [hsch] at hrow
    rw [UpdateScheduleNextRun_ok hfind hcalc, if_neg hnotonce] at hrow
    simp only [] at hrow
    unfold saveSchedule at hrow
    rw [List.mem_map] at hrow
    obtain ⟨x, hx, hfx⟩ := hrow
    have hid := lookupSchedule_id hfind
    by_cases hxid : x.id =
        ({ s with next_run_at := some t.epoch, last_run_at := some now2 } : Schedule).id
    · rw [if_pos hxid] at hfx
      rw [← hfx]
    · rw [if_neg hxid] at hfx
      exfalso
      apply hxid
      rw [hfx, hrid]
      exact hid.symm

/-- Claim C5 (corrected, amended form): the runner's audit table is
append-only — every attempt only appends rows — and an attempt whose two
run-row writes both succeed appends exactly two rows: a `running` row
stamped at the attempt's start with no `completed_at` and no `error_msg`,
and a terminal `completed`/`failed` row stamped at the attempt's end, with
`completed_at` set and with `error_msg` holding exactly the failure text
when the attempt failed. -/
theorem C5_amended_two_rows (st : RunnerState) (sched : Schedule)
    (startOk endOk : Bool) (jobErr : Option String) (now1 now2 : Int) :
    (∃ tail, (executeSchedule st sched startOk endOk jobErr now1 now2).1.runs
        = st.runs ++ tail)
      ∧ (startOk = true → endOk = true →
        (executeSchedule st sched startOk endOk jobErr now1 now2).1.runs
          = st.runs ++
            [{ schedule_id := sched.id, status := "running", started_at := now1,
               completed_at := none, error_msg := none },
             { schedule_id := sched.id,
               status := if jobErr.isSome then "failed" else "completed",
               started_at := now2, completed_at := some now2,
               error_msg := jobErr }]) := by
  cases startOk with
  | false =>
    constructor
    · exact ⟨[], by unfold executeSchedule; simp⟩
    · intro h
      exact absurd h (by simp)
  | true =>
    cases endOk with
    | false =>
      have hruns0 : (executeSchedule st sched true false jobErr now1 now2).1.runs
          = st.runs ++
            [{ schedule_id := sched.id, status := "running", started_at := now1,
               completed_at := none, error_msg := none }] := by
        unfold executeSchedule RecordScheduleRun
        simp
      constructor
      · exact ⟨_, hruns0⟩
      · intro _ h
        exact absurd h (by simp)
    | true =>
      have hruns : (executeSchedule st sched true true jobErr now1 now2).1.runs
          = st.runs ++
            [{ schedule_id := sched.id, status := "running", started_at := now1,
               completed_at := none, error_msg := none },
             { schedule_id := sched.id,
               status := if jobErr.isSome then "failed" else "completed",
               started_at := now2, completed_at := some now2,
               error_msg := jobErr }] := by
        unfold executeSchedule RecordScheduleRun
        cases jobErr with
        | none => simp
        | some e => simp
      exact ⟨⟨_, hruns⟩, fun _ _ => hruns⟩

/-- Claim C2 (corrected, amended form): for a daily schedule in a
fixed-UTC-offset (DST-free) zone the computed next run is today's `HH:MM`
in the zone, converted to UTC, whenever "now" is at or before that
instant — the equality boundary fires today, not the next day — and
otherwise the source adds an absolute 24 hours to today's `HH:MM`, which
in such zones is exactly the following day's `HH:MM`.  Across a DST
transition, outside this embedding, that absolute shift lands on a
different wall clock than the next day's `HH:MM`. -/
theorem C2_amended_daily_boundary (timeStr tz : String) (now : Int) (r : GoTime)
    (hok : calculateDailyNextRun timeStr tz now = .ok r) :
    ∃ off h mi, loadLocation tz = some off ∧ parseHM timeStr = some (h, mi) ∧
      (let todayAt := 86400 * ((now + off) / 86400)
          + ((h * 3600 + mi * 60 : Nat) : Int) - off;
        r = ⟨if now ≤ todayAt then todayAt else todayAt + 86400, 0⟩) := by
  obtain ⟨off, h, mi, h1, h2, h3⟩ := calculateDailyNextRun_ok hok
  refine ⟨off, h, mi, h1, h2, ?_⟩
  simp only [] at h3 ⊢
  rw [h3]
  by_cases hc : 86400 * ((now + off) / 86400)
      + ((h * 3600 + mi * 60 : Nat) : Int) - off < now
  · rw [if_pos hc, if_neg (by omega)]
  · rw [if_neg hc, if_pos (by omega)]

/-- Claim C2 counterexample: with `time = "09:00"`, zone UTC and "now"
exactly 09:00:00 UTC on 2025-01-01 (epoch 1735722000), the source returns
today's 09:00 — the instant equal to "now" — and not the next day's 09:00
(epoch 1735808400) that the quoted boundary example prescribes. -/
theorem C2_counterexample_boundary :
    calculateDailyNextRun "09:00" "UTC" 1735722000 = .ok ⟨1735722000, 0⟩ ∧
      (⟨1735722000, 0⟩ : GoTime) ≠ ⟨1735808400, 0⟩ :=
  ⟨rfl, by decide⟩

/-- Claim C6 (corrected, amended form): for a monthly schedule the target
year and month are those of "now plus one month" under Go's
`AddDate`/`time.Date` day-overflow normalization — so a local January 29–31
targets March, not February — and the requested day is clamped to the
target month's length only when it exceeds 28; the run is that local date
at `HH:MM` converted to UTC. -/
theorem C6_amended_monthly_clamp (dom : Int) (timeStr tz : String) (now : Int)
    (r : GoTime) (hok : calculateMonthlyNextRun dom timeStr tz now = .ok r) :
    ∃ off h mi y2 m2 d2, loadLocation tz = some off ∧ parseHM timeStr = some (h, mi) ∧
      (let p := civilFromDays ((now + off) / 86400);
        normDate (nextMonthOf p.1 p.2.1).1 (nextMonthOf p.1 p.2.1).2 p.2.2 = (y2, m2, d2)) ∧
      (let td : Int := if 28 < dom then
            (if (daysInMonth y2 m2 : Int) < dom then (daysInMonth y2 m2 : Int) else dom)
          else dom;
        1 ≤ td ∧ td ≤ (daysInMonth y2 m2 : Int) ∧
          r = ⟨86400 * daysFromCivil y2 m2 td.toNat
                + ((h * 3600 + mi * 60 : Nat) : Int) - off, 0⟩) :=
  calculateMonthlyNextRun_ok hok

/-- Claim C6 counterexample: `day_of_month = 31` at `time = "10:00"` in UTC
with "now" on 2025-01-31 12:00:00 UTC (epoch 1738324800): `AddDate(0,1,0)`
normalizes Jan 31 + 1 month to March 3, so the target month is March — the
returned run is 2025-03-31 10:00 UTC (epoch 1743415200), not the last day
of February (2025-02-28 10:00 UTC, epoch 1740736800) that the spec
prescribes. -/
theorem C6_counterexample_february_skipped :
    calculateMonthlyNextRun 31 "10:00" "UTC" 1738324800 = .ok ⟨1743415200, 0⟩ ∧
      (⟨1743415200, 0⟩ : GoTime) ≠ ⟨1740736800, 0⟩ :=
  ⟨rfl, by decide⟩

/-- Claim C7 (corrected, amended form): for a biweekly schedule the anchor
is `start_date` at local midnight; the whole elapsed 14-day cycles since
the anchor (truncated toward zero) select the base week; the candidate is
that week's day shifted to weekday `dow` — possibly backwards — and one
cycle of 14 days is added exactly when the candidate's local *midnight* is
strictly before "now"; the clock `HH:MM` is attached only afterwards, so
the returned instant is not guaranteed to be after "now". -/
theorem C7_amended_biweekly_midnight (dow : Int) (timeStr tz startDate : String)
    (now : Int) (r : GoTime)
    (hok : calculateBiweeklyNextRun dow timeStr tz startDate now = .ok r) :
    ∃ off h mi sy sm sd, loadLocation tz = some off ∧ parseHM timeStr = some (h, mi) ∧
      parseDateCivil startDate = some (sy, sm, sd) ∧
      (let S := daysFromCivil sy sm sd;
        let k := Int.tdiv (now - (86400 * S - off)) 1209600;
        let wd := (S + k * 14 + 4) % 7;
        (86400 * S - off + k * 14 * 86400 + (dow - wd) * 86400 < now →
          r = ⟨86400 * (S + k * 14 + (dow - wd) + 14)
                + ((h * 3600 + mi * 60 : Nat) : Int) - off, 0⟩)
        ∧ (¬ 86400 * S - off + k * 14 * 86400 + (dow - wd) * 86400 < now →
          r = ⟨86400 * (S + k * 14 + (dow - wd))
                + ((h * 3600 + mi * 60 : Nat) : Int) - off, 0⟩)) :=
  calculateBiweeklyNextRun_ok hok

/-- Claim C7 counterexample: `day_of_week = 0`, `time = "10:00"`, zone UTC,
`start_date = "2024-01-03"` (a Wednesday), "now" = 2024-01-14 12:00:00 UTC
(epoch 1705233600): the base-week candidate is Sunday 2023-12-31, its
midnight is before "now" so one 14-day cycle is added, giving Sunday
2024-01-14 at 10:00 UTC (epoch 1705226400) — two hours before "now", so
the returned instant is not after the "now" used to compute it. -/
theorem C7_counterexample_not_after_now :
    calculateBiweeklyNextRun 0 "10:00" "UTC" "2024-01-03" 1705233600
        = .ok ⟨1705226400, 0⟩ ∧
      ¬ (1705233600 : Int) < (1705226400 : Int) :=
  ⟨rfl, by decide⟩

/-- Claim C8 (corrected, amended form): for a once schedule the calculator
parses `date_time` as RFC3339, whose zone suffix (`Z` or `±HH:MM`) is
mandatory, and returns exactly the instant the string itself denotes: the
`userTimezone` argument never shifts the instant — the wall clock of a
non-`Z` string is interpreted in the string's own offset, not in
`userTimezone` — and the successful result is independent of the timezone
argument. -/
theorem C8_amended_once_instant (data : ScheduleData) (tz : String) (r : GoTime)
    (hok : ParseScheduleTime data tz = .ok r) :
    ∃ str t, data.date_time = some (JVal.s str) ∧ parseRFC3339 str = some t ∧
      r.epoch = t.epoch ∧
      ∀ tz2 r2, ParseScheduleTime data tz2 = .ok r2 → r2.epoch = r.epoch := by
  obtain ⟨str, t, h1, h2, h3⟩ := ParseScheduleTime_ok hok
  refine ⟨str, t, h1, h2, by rw [h3], ?_⟩
  intro tz2 r2 hok2
  obtain ⟨str2, t2, g1, g2, g3⟩ := ParseScheduleTime_ok hok2
  rw [h1] at g1
  simp only [Option.some.injEq, JVal.s.injEq] at g1
  subst g1
  rw [h2] at g2
  simp only [Option.some.injEq] at g2
  rw [g3, h3, ← g2]

/-- Claim C8 counterexample: the non-`Z` string
`"2025-06-01T10:00:00+05:30"` with `userTimezone = "Asia/Tokyo"`: the
result is the instant the string denotes in its own `+05:30` offset (epoch
1748752200), not the string's wall clock interpreted in Tokyo (epoch
1748739600) as the spec prescribes. -/
theorem C8_counterexample_own_offset :
    ParseScheduleTime { date_time := some (JVal.s "2025-06-01T10:00:00+05:30") }
        "Asia/Tokyo" = .ok ⟨1748752200, 0⟩ ∧
      (⟨1748752200, 0⟩ : GoTime) ≠ ⟨1748739600, 0⟩ :=
  ⟨rfl, by decide⟩

/-- Claim C1 (corrected, amended form): over the fixed-UTC-offset
(DST-free) zones this embedding resolves, the strict-future guarantee
holds only per type and with caveats — a daily run is never before "now"
(it can equal it at the boundary), while a weekly run with `day_of_week`
in `0..6` and a monthly run are strictly after "now"; a `once` run can lie
arbitrarily far in the past, and a biweekly run need not be after "now".
Zones with DST transitions lie outside this embedding, and no bound is
asserted for them: there the daily step's absolute 24 hours can land a
computed run before "now" on a 25-hour fall-back day. -/
theorem C1_amended_monotonicity (timeStr tz : String) (dow dom now : Int)
    (r1 r2 r3 : GoTime) :
    (calculateDailyNextRun timeStr tz now = .ok r1 → now ≤ r1.epoch)
      ∧ (0 ≤ dow → dow ≤ 6 →
          calculateWeeklyNextRun dow timeStr tz now = .ok r2 → now < r2.epoch)
      ∧ (calculateMonthlyNextRun dom timeStr tz now = .ok r3 → now < r3.epoch) := by
  refine ⟨?_, ?_, ?_⟩
  · intro hok
    obtain ⟨off, h, mi, h1, h2, h3⟩ := calculateDailyNextRun_ok hok
    rw [h3]
    simp only []
    split <;> omega
  · intro hd0 hd6 hok
    obtain ⟨off, h, mi, h1, h2, h3⟩ := calculateWeeklyNextRun_ok hok
    rw [h3]
    simp only []
    rw [parseHM_minutes h2]
    have ha : (0 : Int) ≤ dow - ((now + off) / 86400 + 4) % 7 + 7 := by omega
    rw [Int.tmod_eq_emod ha (by norm_num)]
    split
    · omega
    · rename_i hcond
      by_cases hz : (dow - ((now + off) / 86400 + 4) % 7 + 7) % 7 = 0
      · have hM : ¬ ((now + off) % 86400 / 3600 * 60 + (now + off) % 86400 % 3600 / 60 ≥
            (h : Int) * 60 + (mi : Int)) := fun hM => hcond ⟨hz, hM⟩
        omega
      · omega
  · intro hok
    obtain ⟨off, h, mi, y2, m2, d2, h1, h2, h3, h4⟩ := calculateMonthlyNextRun_ok hok
    simp only [] at h3 h4
    obtain ⟨htd1, htd2, hr⟩ := h4
    rw [hr]
    simp only []
    rcases hcp : civilFromDays ((now + off) / 86400) with ⟨py, pm, pd⟩
    rw [hcp] at h3
    simp only [] at h3
    rcases hq : nextMonthOf py pm with ⟨qy, qm⟩
    rw [hq] at h3
    simp only [] at h3
    have hpv := civilFromDays_valid hcp
    have hD := daysFromCivil_civilFromDays hcp
    have hlt := daysFromCivil_target_lt _ hpv hq h3 htd1
    omega

/-- Claim C1 counterexample: a `once` schedule whose `date_time` is
2020-01-01T00:00:00Z, evaluated at "now" = 2025-01-01 00:00:00 UTC (epoch
1735689600): the calculator returns the stored past instant (epoch
1577836800) without error, which is not strictly later than "now". -/
theorem C1_counterexample_once_past :
    calculateNextRunTime "once"
        { date_time := some (JVal.s "2020-01-01T00:00:00Z") } "UTC" 1735689600
      = .ok ⟨1577836800, 0⟩ ∧ ¬ (1735689600 : Int) < (1577836800 : Int) :=
  ⟨rfl, by decide⟩

/-- Claim C5 counterexample: a due `once` schedule executed with both
run-row writes succeeding and a successful job leaves two `ScheduleRun`
rows in the store, not the single created-then-updated row the spec
describes. -/
theorem C5_counterexample_two_rows :
    (executeSchedule { schedules := [onceSchedule], runs := [] } onceSchedule true true
        none 100 200).1.runs.length = 2 ∧ (2 : Nat) ≠ 1 :=
  ⟨rfl, by decide⟩

/-- Claim C4 counterexample: advancing the stored biweekly schedule at
"now" = 2024-01-14 12:00:00 UTC (epoch 1705233600) succeeds and overwrites
`next_run_at` with 1705226400 — an instant before "now" — so the schedule
is still returned by the due-schedule query at that very instant: it
remains stuck at a past `next_run_at` and re-fires on every subsequent
tick, contradicting the claim's "never remains stuck at a past
next_run_at". -/
theorem C4_counterexample_stuck_past :
    UpdateScheduleNextRun [bwSchedule] 11 1705233600 = ([bwAdvanced], none)
      ∧ bwAdvanced.next_run_at = some 1705226400
      ∧ GetDueSchedules (UpdateScheduleNextRun [bwSchedule] 11 1705233600).1 1705233600
          = [bwAdvanced]
      ∧ ¬ (1705233600 : Int) < (1705226400 : Int) :=
  ⟨rfl, rfl, rfl, by decide⟩

/-- Concrete instance of claim C1's amended bounds: daily `09:00` UTC at
2025-01-01 08:00 UTC lands at 09:00 the same day (not before "now");
weekly Monday and monthly day 15 land strictly after "now". -/
theorem C1_witness_lower_bounds :
    (1735718400 : Int) ≤ (⟨1735722000, 0⟩ : GoTime).epoch
      ∧ (1735718400 : Int) < (⟨1736154000, 0⟩ : GoTime).epoch
      ∧ (1735718400 : Int) < (⟨1739610000, 0⟩ : GoTime).epoch :=
  ⟨(C1_amended_monotonicity "09:00" "UTC" 1 15 1735718400 ⟨1735722000, 0⟩ ⟨1736154000, 0⟩
      ⟨1739610000, 0⟩).1 (by rfl),
   (C1_amended_monotonicity "09:00" "UTC" 1 15 1735718400 ⟨1735722000, 0⟩ ⟨1736154000, 0⟩
      ⟨1739610000, 0⟩).2.1 (by decide) (by decide) (by rfl),
   (C1_amended_monotonicity "09:00" "UTC" 1 15 1735718400 ⟨1735722000, 0⟩ ⟨1736154000, 0⟩
      ⟨1739610000, 0⟩).2.2 (by rfl)⟩

/-- Concrete instance of claim C2's amended boundary rule: daily `09:00`
UTC at 2025-01-01 08:00 UTC (before the boundary) lands at 09:00 the same
day. -/
theorem C2_witness_same_day :
    ∃ off h mi, loadLocation "UTC" = some off ∧ parseHM "09:00" = some (h, mi) ∧
      (let todayAt := 86400 * ((1735718400 + off) / 86400)
          + ((h * 3600 + mi * 60 : Nat) : Int) - off;
        (⟨1735722000, 0⟩ : GoTime)
          = ⟨if 1735718400 ≤ todayAt then todayAt else todayAt + 86400, 0⟩) :=
  C2_amended_daily_boundary "09:00" "UTC" 1735718400 ⟨1735722000, 0⟩ (by rfl)

/-- Concrete instance of claim C3: retiring the stored `once` schedule at
epoch 1735700000 deactivates it, clears `next_run_at`, stamps
`last_run_at`, and it is never due again. -/
theorem C3_witness_once_retired :
    (∀ row ∈ (UpdateScheduleNextRun [onceSchedule] 7 1735700000).1, row.id = 7 →
        row.is_active = false ∧ row.next_run_at = none ∧ row.last_run_at = some 1735700000)
      ∧ ∀ later : Int,
          ∀ row ∈ GetDueSchedules (UpdateScheduleNextRun [onceSchedule] 7 1735700000).1 later,
            row.id ≠ 7 :=
  @C3_once_deactivation [onceSchedule] 7 1735700000 onceSchedule ⟨1735689600, 0⟩
    (by rfl) (by rfl) (by rfl)

/-- Concrete instance of claim C6's amended rule: `day_of_month = 31` at
"now" = 2025-01-31 12:00 UTC targets the `AddDate`-normalized month
(March) with the day clamped into it. -/
theorem C6_witness_clamp :
    ∃ off h mi y2 m2 d2, loadLocation "UTC" = some off ∧ parseHM "10:00" = some (h, mi) ∧
      (let p := civilFromDays ((1738324800 + off) / 86400);
        normDate (nextMonthOf p.1 p.2.1).1 (nextMonthOf p.1 p.2.1).2 p.2.2 = (y2, m2, d2)) ∧
      (let td : Int := if 28 < (31 : Int) then
            (if (daysInMonth y2 m2 : Int) < 31 then (daysInMonth y2 m2 : Int) else 31)
          else 31;
        1 ≤ td ∧ td ≤ (daysInMonth y2 m2 : Int) ∧
          (⟨1743415200, 0⟩ : GoTime) = ⟨86400 * daysFromCivil y2 m2 td.toNat
                + ((h * 3600 + mi * 60 : Nat) : Int) - off, 0⟩) :=
  C6_amended_monthly_clamp 31 "10:00" "UTC" 1738324800 ⟨1743415200, 0⟩ (by rfl)

/-- Concrete instance of claim C7's amended rule: the rolled candidate of
the biweekly counterexample input is exactly the instant the
characterization prescribes. -/
theorem C7_witness_roll :
    ∃ off h mi sy sm sd, loadLocation "UTC" = some off ∧ parseHM "10:00" = some (h, mi) ∧
      parseDateCivil "2024-01-03" = some (sy, sm, sd) ∧
      (let S := daysFromCivil sy sm sd;
        let k := Int.tdiv (1705233600 - (86400 * S - off)) 1209600;
        let wd := (S + k * 14 + 4) % 7;
        (86400 * S - off + k * 14 * 86400 + ((0 : Int) - wd) * 86400 < 1705233600 →
          (⟨1705226400, 0⟩ : GoTime) = ⟨86400 * (S + k * 14 + ((0 : Int) - wd) + 14)
                + ((h * 3600 + mi * 60 : Nat) : Int) - off, 0⟩)
        ∧ (¬ 86400 * S - off + k * 14 * 86400 + ((0 : Int) - wd) * 86400 < 1705233600 →
          (⟨1705226400, 0⟩ : GoTime) = ⟨86400 * (S + k * 14 + ((0 : Int) - wd))
                + ((h * 3600 + mi * 60 : Nat) : Int) - off, 0⟩)) :=
  C7_amended_biweekly_midnight 0 "10:00" "UTC" "2024-01-03" 1705233600 ⟨1705226400, 0⟩
    (by rfl)

/-- Concrete instance of claim C8's amended rule: the `+05:30` string's own
instant is returned, and every resolvable timezone argument yields the same
epoch. -/
theorem C8_witness_tz_independent :
    ∃ str t,
      ({ date_time := some (JVal.s "2025-06-01T10:00:00+05:30") } : ScheduleData).date_time
          = some (JVal.s str) ∧ parseRFC3339 str = some t ∧
        (⟨1748752200, 0⟩ : GoTime).epoch = t.epoch ∧
        ∀ tz2 r2,
          ParseScheduleTime { date_time := some (JVal.s "2025-06-01T10:00:00+05:30") } tz2
              = .ok r2 → r2.epoch = (⟨1748752200, 0⟩ : GoTime).epoch :=
  C8_amended_once_instant { date_time := some (JVal.s "2025-06-01T10:00:00+05:30") }
    "Asia/Tokyo" ⟨1748752200, 0⟩ (by rfl)

/-- Concrete instance of claim C10: a stored `once` schedule with an
unresolvable timezone is returned with the calculation error and the store
is untouched. -/
theorem C10_witness_error_no_write :
    UpdateScheduleNextRun [badOnceSchedule] 9 1735700000
        = ([badOnceSchedule], some "failed to parse schedule time: invalid timezone")
      ∧ ∀ later : Int,
          GetDueSchedules (UpdateScheduleNextRun [badOnceSchedule] 9 1735700000).1 later
            = GetDueSchedules [badOnceSchedule] later :=
  @C10_calc_error_no_write [badOnceSchedule] 9 1735700000 badOnceSchedule
    "failed to parse schedule time: invalid timezone" (by rfl) (by rfl)

end Insights
